import Mathlib

/-!
Verification development for the inline-test-injection engine of
`doc-detective/ai-tools` (`skills/inline-test-injection/scripts/src/`).

The definitions below are a shallow embedding of the JavaScript sources
`format-utils.mjs` and `inject-inline.mjs`:

* document text is `List Char`; JavaScript `substring`/index access become
  `List.take`/`List.drop`/`List.get?` (out-of-range access yields `none`,
  matching JavaScript's `undefined`);
* JavaScript numbers used as similarity scores become `ℚ` (the literals
  `0.3`, `0.2`, `0.1`, `0.5`, `0.8` become `3/10`, `1/5`, `1/10`, `1/2`,
  `4/5`);
* JavaScript objects (test steps, serialized step bodies) become ordered
  association lists `List (String × JValue)`, preserving key insertion
  order, with `jsTruthy` modelling JavaScript truthiness;
* thrown exceptions become `Except String`; a `.map` callback that can
  throw becomes `mapMEx` (the whole map aborts at the first error, as an
  exception propagates out of `Array.prototype.map`);
* the JavaScript regex engine (`RegExp.prototype.exec` and
  `new RegExp(src, 'g')`) is a host primitive, not repository code; it is
  modelled as explicit parameters (`exec : JRegex → String → List RawMatch`
  for scanning, `compile : String → Except String JRegex` for the fallible
  constructor), with `JRegex` carrying the pattern source string.
-/

set_option allowUnsafeReducibility true
attribute [semireducible] Rat.add Rat.sub Rat.mul Rat.div Rat.inv

/-! ### JavaScript value model -/

/-- JSON-like JavaScript values as they occur in steps, tests and configs. -/
inductive JValue where
  | str (s : String)
  | num (n : Int)
  | bool (b : Bool)
  | null
  | arr (xs : List JValue)
  | obj (kvs : List (String × JValue))

/-- a step object: ordered key/value pairs (JavaScript object literal). -/
abbrev Step := List (String × JValue)

/-- JavaScript truthiness of a value. -/
def jsTruthy : JValue → Bool
  | .str s => s ≠ ""
  | .num n => n ≠ 0
  | .bool b => b
  | .null => false
  | .arr _ => true
  | .obj _ => true

/-- truthiness of a possibly-absent (`undefined`) value. -/
def jsTruthyOpt : Option JValue → Bool
  | none => false
  | some v => jsTruthy v

/-- embedding of `Object.keys(v).length` for the values that can reach that call. -/
def jsKeysCount : JValue → Nat
  | .obj kvs => kvs.length
  | .arr xs => xs.length
  | .str s => s.length
  | _ => 0

/-- embedding of `v === true` for a possibly-absent value. -/
def isTrueVal : Option JValue → Bool
  | some (.bool true) => true
  | _ => false

/-- property lookup `step[k]` on an object modelled as an assoc list. -/
def lookupKey (step : Step) (k : String) : Option JValue :=
  (step.find? (fun kv => kv.1 == k)).map (·.2)

/-- embedding of `a || b` on strings where `a` may be absent (JavaScript falsy check). -/
def jsOr (a : Option String) (b : String) : String :=
  match a with
  | some s => if s = "" then b else s
  | none => b

/-! ### Batch mutator (`format-utils.mjs`: `findLineStart`, `findLineEnd`,
`getLineIndentation`, `batchUpdateContent`) -/

/-- one update operation as produced by `generateUpdates`. -/
structure Update where
  offset : Nat
  newContent : String
  insertAfter : Bool
  type : String := ""
  unmatched : Bool := false
  matchedTo : Option String := none
deriving DecidableEq, Repr

/-- embedding of `findLineStart(content, offset)`: scan backward from `offset - 1` until a
newline or the start of the text (positions past the end read as
`undefined ≠ '\n'` in JavaScript, i.e. `none` here, and the scan continues). -/
def findLineStart (content : List Char) : Nat → Nat
  | 0 => 0
  | p + 1 => if content[p]? = some '\n' then p + 1 else findLineStart content p

/-- forward scan over the remaining characters for `findLineEnd`. -/
def findLineEndAux : List Char → Nat → Nat
  | [], pos => pos
  | c :: rest, pos => if c = '\n' then pos + 1 else findLineEndAux rest (pos + 1)

/-- embedding of `findLineEnd(content, offset)`: scan forward to just past the newline that
ends the line containing `offset` (or to `offset` itself when `offset` is past
the end of the text, since the JavaScript loop body never runs then); the scan
from position `pos` reads exactly the characters of `content.drop pos`. -/
def findLineEnd (content : List Char) (pos : Nat) : Nat :=
  findLineEndAux (content.drop pos) pos

/-- leading spaces/tabs of a character list. -/
def getLineIndentAux : List Char → List Char
  | [] => []
  | c :: rest => if c = ' ' ∨ c = '\t' then c :: getLineIndentAux rest else []

/-- embedding of `getLineIndentation(content, lineStart)`: leading spaces/tabs of the line
beginning at `lineStart`. -/
def getLineIndentation (content : List Char) (pos : Nat) : List Char :=
  getLineIndentAux (content.drop pos)

/-- application of one update (one iteration of the `batchUpdateContent` loop):
splice `indent ++ newContent ++ "\n"` after the end of the line containing
`offset` (`insertAfter`) or before its start. -/
def applyUpdate (content : List Char) (u : Update) : List Char :=
  if u.insertAfter then
    let lineEnd := findLineEnd content u.offset
    let lineStart := findLineStart content u.offset
    let indent := getLineIndentation content lineStart
    content.take lineEnd ++ indent ++ u.newContent.toList ++ ['\n'] ++ content.drop lineEnd
  else
    let lineStart := findLineStart content u.offset
    let indent := getLineIndentation content lineStart
    content.take lineStart ++ indent ++ u.newContent.toList ++ ['\n'] ++ content.drop lineStart

/-- stable insertion step used to model `Array.prototype.sort` (which is
stable): `u` is placed before the first element `v` with `le u v`. -/
def insertSortedBy {α : Type} (le : α → α → Bool) (u : α) : List α → List α
  | [] => [u]
  | v :: rest => if le u v then u :: v :: rest else v :: insertSortedBy le u rest

/-- stable sort by the given precedence test (`le u v` = "u may precede v"). -/
def sortedBy {α : Type} (le : α → α → Bool) (l : List α) : List α :=
  l.foldr (insertSortedBy le) []

/-- the sort `[...updates].sort((a, b) => b.offset - a.offset)`: stable descending sort
by offset. -/
def sortUpdatesDesc (l : List Update) : List Update :=
  sortedBy (fun a b => decide (b.offset ≤ a.offset)) l

/-- embedding of `batchUpdateContent({content, updates})`: sort descending by offset, then
apply each update in turn. -/
def batchUpdateContent (content : List Char) (updates : List Update) : List Char :=
  if updates.isEmpty then content
  else (sortUpdatesDesc updates).foldl applyUpdate content

/-! ### Content scanner data model (`inject-inline.mjs`) -/

/-- a compiled regex as the engine sees it: only the pattern source is
representable; match behaviour is supplied by an `exec` oracle parameter. -/
structure JRegex where
  src : String
deriving DecidableEq, Repr

/-- one raw result of a global `regex.exec` scan: `match.index`, `match[0]`,
and `match.slice(1)` (a capture group that did not participate is `none`). -/
structure RawMatch where
  index : Nat
  text : String
  captures : List (Option String)
deriving DecidableEq, Repr

/-- a markup pattern as used by the scanner (regexes already constructed). -/
structure MarkupPattern where
  name : String
  regexes : List JRegex
  actions : List String
  captureGroups : List (String × Nat)
deriving DecidableEq, Repr

/-- one scan result (`findContentMatches` element). -/
structure ContentMatch where
  patternName : String
  actions : List String
  captureGroups : List (String × Nat)
  matchText : String
  captures : List (Option String)
  offset : Nat
  endOffset : Nat
  lineNumber : Nat
deriving DecidableEq, Repr

/-- embedding of `content.substring(0, idx).split('\n').length`. -/
def countLineNumber (content : String) (idx : Nat) : Nat :=
  ((content.toList.take idx).filter (fun c => c = '\n')).length + 1

/-- stable ascending sort by offset (`matches.sort((a, b) => a.offset - b.offset)`). -/
def sortMatchesAsc (l : List ContentMatch) : List ContentMatch :=
  sortedBy (fun a b => decide (a.offset ≤ b.offset)) l

/-- embedding of `findContentMatches(content, patterns)`: run every regex of every pattern
over the text (via the `exec` oracle standing for the JavaScript regex
engine's global-exec loop) and sort the collected matches by start offset. -/
def findContentMatches (exec : JRegex → String → List RawMatch)
    (content : String) (patterns : List MarkupPattern) : List ContentMatch :=
  let ms := patterns.flatMap (fun p =>
    p.regexes.flatMap (fun r =>
      (exec r content).map (fun rm =>
        { patternName := p.name
          actions := p.actions
          captureGroups := p.captureGroups
          matchText := rm.text
          captures := rm.captures
          offset := rm.index
          endOffset := rm.index + rm.text.length
          lineNumber := countLineNumber content rm.index })))
  sortMatchesAsc ms

/-! ### Similarity scoring (`calculateSimilarity`) -/

/-- the keys skipped when `calculateSimilarity` looks for the step's action. -/
def simExcludedKeys : List String := ["stepId", "description", "sourceLocation"]

/-- embedding of `Object.keys(step).find(k => !['stepId','description','sourceLocation'].includes(k))`. -/
def stepActionKey (step : Step) : Option String :=
  (step.find? (fun kv => !simExcludedKeys.contains kv.1)).map (·.1)

/-- embedding of `match.captures[0] || match.matchText` (an absent or empty capture falls
back to the whole matched text). -/
def matchValue (m : ContentMatch) : String :=
  match m.captures.head? with
  | some (some s) => if s = "" then m.matchText else s
  | _ => m.matchText

/-- whether `hay` contains `needle` as a contiguous sublist. -/
def listContainsSeg (hay needle : List Char) : Bool :=
  needle.isPrefixOf hay ||
    match hay with
    | [] => false
    | _ :: t => listContainsSeg t needle

/-- embedding of `a.includes(b)` on strings. -/
def strContains (a b : String) : Bool :=
  listContainsSeg a.toList b.toList

/-- embedding of `value.toLowerCase().split(/\s+/)`: split at maximal whitespace runs; a
leading (resp. trailing) whitespace run contributes a leading (resp. trailing)
empty word, exactly as JavaScript `String.prototype.split` does. The flag
records whether the scan is currently inside a separator run. -/
def splitWsGo : List Char → List Char → Bool → List (List Char)
  | [], acc, inRun => if inRun then [[]] else [acc.reverse]
  | c :: rest, acc, inRun =>
      if c.isWhitespace then
        if inRun then splitWsGo rest [] true
        else acc.reverse :: splitWsGo rest [] true
      else splitWsGo rest (c :: acc) false

/-- the word list of a step/match value. -/
def jsWords (s : String) : List (List Char) :=
  splitWsGo (s.toList.map Char.toLower) [] false

/-- embedding of `stepWords.filter(w => matchWords.includes(w))`. -/
def commonWords (sv mv : String) : List (List Char) :=
  (jsWords sv).filter (fun w => (jsWords mv).contains w)

/-- embedding of `calculateSimilarity(step, match)`. -/
def calculateSimilarity (step : Step) (m : ContentMatch) : ℚ :=
  let stepAction := stepActionKey step
  let matchActionName := m.actions.head?
  if stepAction = matchActionName then
    let stepValue := stepAction.bind (lookupKey step)
    match stepValue with
    | some (.str sv) =>
        let mv := matchValue m
        if sv = mv then 1
        else if strContains sv mv || strContains mv sv then 4/5
        else
          let cw := commonWords sv mv
          if cw.length > 0 then
            1/2 * ((cw.length : ℚ) / (max (jsWords sv).length (jsWords mv).length : ℚ))
          else 3/10
    | _ => 3/10
  else 0

/-! ### Assignment engine (`matchStepsToContent`) -/

/-- one output entry of `matchStepsToContent`: either a matched step
(`contentMatch = some (matchIndex, match)`, carrying the accepted score) or an
unmatched one (`contentMatch = none`, `unmatched = true`, with a suggested
offset). -/
structure Assignment where
  step : Step
  stepIndex : Nat
  contentMatch : Option (Nat × ContentMatch) := none
  score : ℚ := 0
  suggestedOffset : Nat := 0
  unmatched : Bool := false

/-- embedding of `matchedSteps[matchedSteps.length - 1].contentMatch?.offset ?? -1`. -/
def lastMatchedOffset (la : Assignment) : Int :=
  match la.contentMatch with
  | some (_, pm) => (pm.offset : Int)
  | none => -1

/-- the sequential adjustment added to a candidate's base similarity: nothing
for the very first processed step, otherwise `+0.2` when the candidate lies
strictly after the previous list entry's reference offset (the previous
entry's match offset, or `-1` when that entry is unmatched) and `-0.1`
otherwise. -/
def seqAdj (last? : Option Assignment) (m : ContentMatch) : ℚ :=
  match last? with
  | none => 0
  | some la => if (m.offset : Int) > lastMatchedOffset la then 1/5 else -(1/10)

/-- a candidate's full adjusted score for the current step. -/
def candScore (s : Step) (last? : Option Assignment) (m : ContentMatch) : ℚ :=
  calculateSimilarity s m + seqAdj last? m

/-- index/value pairing of the candidate list (the inner `for (j ...)` loop
iterates over indices). -/
def enumIdx (i0 : Nat) : List ContentMatch → List (Nat × ContentMatch)
  | [] => []
  | m :: rest => (i0, m) :: enumIdx (i0 + 1) rest

/-- the inner candidate loop: skip used indices, track the strictly best
score seen so far (`score > bestScore`, starting from `(null, 0)`). -/
def findBestGo (s : Step) (last? : Option Assignment) (used : List Nat) :
    List (Nat × ContentMatch) → Option (Nat × ContentMatch) × ℚ →
    Option (Nat × ContentMatch) × ℚ
  | [], best => best
  | (j, m) :: rest, best =>
      if j ∈ used then findBestGo s last? used rest best
      else
        let score := candScore s last? m
        if best.2 < score then findBestGo s last? used rest (some (j, m), score)
        else findBestGo s last? used rest best

/-- search over all candidates for one step. -/
def findBest (s : Step) (cms : List ContentMatch) (used : List Nat)
    (last? : Option Assignment) : Option (Nat × ContentMatch) × ℚ :=
  findBestGo s last? used (enumIdx 0 cms) (none, 0)

/-- the record pushed for an unmatched step. -/
def unmatchedAssignment (s : Step) (i : Nat) (last? : Option Assignment) : Assignment :=
  { step := s
    stepIndex := i
    contentMatch := none
    suggestedOffset :=
      match last? with
      | some la =>
          match la.contentMatch with
          | some (_, pm) => pm.endOffset
          | none => 0
      | none => 0
    unmatched := true }

/-- the main per-step loop of `matchStepsToContent`; the state is the
previous pushed entry (`matchedSteps[matchedSteps.length - 1]`) and the used
index set. -/
def mstcGo (cms : List ContentMatch) :
    List Step → Nat → Option Assignment → List Nat → List Assignment
  | [], _, _, _ => []
  | s :: rest, i, last?, used =>
      match findBest s cms used last? with
      | (some (j, m), bs) =>
          if 3/10 ≤ bs then
            let a : Assignment :=
              { step := s, stepIndex := i, contentMatch := some (j, m), score := bs }
            a :: mstcGo cms rest (i + 1) (some a) (j :: used)
          else
            let a := unmatchedAssignment s i last?
            a :: mstcGo cms rest (i + 1) (some a) used
      | (none, _) =>
          let a := unmatchedAssignment s i last?
          a :: mstcGo cms rest (i + 1) (some a) used

/-- embedding of `matchStepsToContent(steps, contentMatches)`. -/
def matchStepsToContent (steps : List Step) (cms : List ContentMatch) : List Assignment :=
  mstcGo cms steps 0 none []

/-- the per-test loop of `injectInlineTests`: each test's steps are matched
against the one scanned match list with a fresh used set. -/
def specTestAssignments (tests : List (List Step)) (cms : List ContentMatch) :
    List (List Assignment) :=
  tests.map (fun steps => matchStepsToContent steps cms)

/-- the match index an assignment references, if any. -/
def assignedIdx (a : Assignment) : Option Nat :=
  a.contentMatch.map (·.1)

/-- the referenced match indices of a list of assignments. -/
def usedOf (l : List Assignment) : List Nat :=
  l.filterMap assignedIdx

/-! ### Step/test serializer (`format-utils.mjs`) -/

/-- one comment-wrapper configuration from `COMMENT_FORMATS`. -/
structure CommentFormat where
  extensions : List String
  testOpen : String
  testClose : String
  testEndOpen : String
  testEndClose : String
  stepOpen : String
  stepClose : String
deriving DecidableEq, Repr

/-- embedding of `COMMENT_FORMATS.htmlComment`. -/
def htmlComment : CommentFormat :=
  { extensions := [".md", ".markdown", ".html", ".htm"]
    testOpen := "<!-- test "
    testClose := " -->"
    testEndOpen := "<!-- test end"
    testEndClose := " -->"
    stepOpen := "<!-- step "
    stepClose := " -->" }

/-- embedding of `COMMENT_FORMATS.jsxComment`. -/
def jsxComment : CommentFormat :=
  { extensions := [".mdx", ".jsx", ".tsx"]
    testOpen := "\x7b/* test "
    testClose := " */\x7d"
    testEndOpen := "\x7b/* test end"
    testEndClose := " */\x7d"
    stepOpen := "\x7b/* step "
    stepClose := " */\x7d" }

/-- embedding of `COMMENT_FORMATS.xmlProcessingInstruction`. -/
def xmlProcessingInstruction : CommentFormat :=
  { extensions := [".xml", ".dita", ".ditamap"]
    testOpen := "<?doc-detective test "
    testClose := " ?>"
    testEndOpen := "<?doc-detective test end"
    testEndClose := " ?>"
    stepOpen := "<?doc-detective step "
    stepClose := " ?>" }

/-- embedding of `COMMENT_FORMATS.asciidocComment`. -/
def asciidocComment : CommentFormat :=
  { extensions := [".adoc", ".asciidoc", ".asc"]
    testOpen := "// (test "
    testClose := ")"
    testEndOpen := "// (test end"
    testEndClose := ")"
    stepOpen := "// (step "
    stepClose := ")" }

/-- the table `COMMENT_FORMATS`, in object-literal order. -/
def commentFormats : List (String × CommentFormat) :=
  [("htmlComment", htmlComment), ("jsxComment", jsxComment),
   ("xmlProcessingInstruction", xmlProcessingInstruction),
   ("asciidocComment", asciidocComment)]

/-- embedding of `s.toLowerCase()` (character-wise lowering). -/
def strToLower (s : String) : String :=
  String.mk (s.toList.map Char.toLower)

/-- embedding of `s.trim()` (strip leading and trailing whitespace). -/
def strTrim (s : String) : String :=
  String.mk (((s.toList.dropWhile Char.isWhitespace).reverse.dropWhile
    Char.isWhitespace).reverse)

/-- whether a rendered body spans several lines. -/
def strHasNl (s : String) : Bool :=
  s.toList.contains '\n'

/-- embedding of `getCommentFormat(fileExtension)`. -/
def getCommentFormat (fileExtension : String) : String :=
  let ext := strToLower fileExtension
  match commentFormats.find? (fun fc => fc.2.extensions.contains ext) with
  | some (key, _) => key
  | none => "htmlComment"

/-- the lookup `COMMENT_FORMATS[format]`. -/
def lookupCommentFormat (key : String) : Option CommentFormat :=
  (commentFormats.find? (fun fc => fc.1 == key)).map (·.2)

/-- JSON string escaping for the characters `JSON.stringify` escapes in the
values occurring here. -/
def jsonEscapeChar (c : Char) : String :=
  if c = '\\' then "\\\\"
  else if c = '"' then "\\\""
  else if c = '\n' then "\\n"
  else if c = '\t' then "\\t"
  else if c = Char.ofNat 13 then "\\r"
  else String.singleton c

/-- escape every character of a string for JSON output. -/
def jsonEscape (s : String) : String :=
  String.join (s.toList.map jsonEscapeChar)

mutual
/-- embedding of `JSON.stringify` on the embedded value type. -/
def jsonStringify : JValue → String
  | .str s => "\"" ++ jsonEscape s ++ "\""
  | .num n => toString n
  | .bool b => if b then "true" else "false"
  | .null => "null"
  | .arr xs => "[" ++ String.intercalate "," (jsonStringifyList xs) ++ "]"
  | .obj kvs => "\x7b" ++ String.intercalate "," (jsonStringifyObj kvs) ++ "\x7d"
termination_by structural v => v

/-- serialize each array element. -/
def jsonStringifyList : List JValue → List String
  | [] => []
  | x :: xs => jsonStringify x :: jsonStringifyList xs
termination_by structural l => l

/-- serialize each object entry as `"key":value`. -/
def jsonStringifyObj : List (String × JValue) → List String
  | [] => []
  | (k, v) :: kvs => ("\"" ++ jsonEscape k ++ "\":" ++ jsonStringify v) :: jsonStringifyObj kvs
termination_by structural l => l
end

/-- the character class `[:#\[\]{}|>!&*?'"]` from the YAML quoting rule. -/
def yamlSpecialChars : List Char :=
  [':', '#', '[', ']', Char.ofNat 123, Char.ofNat 125, '|', '>', '!', '&', '*', '?',
   Char.ofNat 39, '"']

/-- whether a YAML string value must be quoted. -/
def yamlNeedsQuote (s : String) : Bool :=
  s.toList.any (fun c => yamlSpecialChars.contains c) || s.toList.contains '\n'

/-- the escaping `.replace(/\\/g, '\\\\').replace(/"/g, '\\"')`. -/
def yamlEscape (s : String) : String :=
  (s.replace "\\" "\\\\").replace "\"" "\\\""

/-- render one scalar YAML value after `key: `. -/
def yamlScalar (s : String) : String :=
  if yamlNeedsQuote s then "\"" ++ yamlEscape s ++ "\"" else s

/-- the lines produced for one top-level YAML entry. -/
def yamlEntryLines (kv : String × JValue) : List String :=
  match kv.2 with
  | .str s => [kv.1 ++ ": " ++ yamlScalar s]
  | .bool b => [kv.1 ++ ": " ++ (if b then "true" else "false")]
  | .num n => [kv.1 ++ ": " ++ toString n]
  | .arr xs => [kv.1 ++ ": " ++ jsonStringify (.arr xs)]
  | .obj sub =>
      (kv.1 ++ ":") :: sub.map (fun skv =>
        match skv.2 with
        | .str s => "  " ++ skv.1 ++ ": " ++ yamlScalar s
        | v => "  " ++ skv.1 ++ ": " ++ jsonStringify v)
  | .null => [kv.1 ++ ": " ++ jsonStringify .null]

/-- embedding of `serializeToSyntax(obj, syntaxFormat)`. -/
def serializeToSyntax (obj : List (String × JValue)) (syntaxFormat : String) : String :=
  if syntaxFormat = "xml" then
    String.intercalate " " (obj.map (fun kv =>
      match kv.2 with
      | .str s => kv.1 ++ "=\"" ++ s ++ "\""
      | .bool b => kv.1 ++ "=" ++ (if b then "true" else "false")
      | .num n => kv.1 ++ "=" ++ toString n
      | v => kv.1 ++ "=" ++ jsonStringify v))
  else if syntaxFormat = "yaml" then
    String.intercalate "\n" (obj.flatMap yamlEntryLines)
  else
    jsonStringify (.obj obj)

/-- the list `EXCLUDED_STEP_KEYS`. -/
def EXCLUDED_STEP_KEYS : List String :=
  ["stepId", "description", "unsafe", "outputs", "variables", "breakpoint", "$schema"]

/-- embedding of `canSerializeAsSimple(step, actionKey)`. -/
def canSerializeAsSimple (step : Step) (actionKey : String) : Bool :=
  let nonActionKeys := step.filter (fun kv =>
    kv.1 ≠ actionKey ∧ ¬ EXCLUDED_STEP_KEYS.contains kv.1)
  if nonActionKeys.length > 0 then false
  else
    let hasCommonProps :=
      jsTruthyOpt (lookupKey step "stepId") ||
      jsTruthyOpt (lookupKey step "description") ||
      isTrueVal (lookupKey step "unsafe") ||
      (jsTruthyOpt (lookupKey step "outputs") &&
        decide (jsKeysCount ((lookupKey step "outputs").getD .null) > 0)) ||
      (jsTruthyOpt (lookupKey step "variables") &&
        decide (jsKeysCount ((lookupKey step "variables").getD .null) > 0)) ||
      isTrueVal (lookupKey step "breakpoint")
    if hasCommonProps then false
    else
      match lookupKey step actionKey with
      | some (.str _) => true
      | some (.num _) => true
      | some (.bool _) => true
      | _ => false

/-- wrapping of a rendered step body in the comment tokens (inline when the
body is a single line, token-per-line otherwise). -/
def wrapStepComment (fc : CommentFormat) (content : String) : String :=
  if strHasNl content then
    strTrim fc.stepOpen ++ "\n" ++ content ++ "\n" ++ strTrim fc.stepClose
  else
    fc.stepOpen ++ content ++ fc.stepClose

/-- wrapping of a rendered test body in the comment tokens. -/
def wrapTestComment (fc : CommentFormat) (content : String) : String :=
  if strHasNl content then
    strTrim fc.testOpen ++ "\n" ++ content ++ "\n" ++ strTrim fc.testClose
  else
    fc.testOpen ++ content ++ fc.testClose

/-- embedding of `serializeStepToInline({step, commentFormat, fileExtension, syntaxFormat})`;
the `throw` on a step without an action key becomes `Except.error`. -/
def serializeStepToInline (step : Step) (commentFormat? : Option String)
    (fileExtension : String) (syntaxFormat? : Option String) : Except String String :=
  let format := jsOr commentFormat? (getCommentFormat fileExtension)
  let syn := jsOr syntaxFormat? "json"
  let formatConfig := (lookupCommentFormat format).getD htmlComment
  let stepToSerialize := step.filter (fun kv => kv.1 ≠ "sourceLocation")
  match stepToSerialize.find? (fun kv => !EXCLUDED_STEP_KEYS.contains kv.1) with
  | none => .error "Cannot serialize step: no action found"
  | some (actionKey, _) =>
      let stepContent :=
        if canSerializeAsSimple stepToSerialize actionKey then
          serializeToSyntax [(actionKey, (lookupKey stepToSerialize actionKey).getD .null)] syn
        else
          serializeToSyntax stepToSerialize syn
      .ok (wrapStepComment formatConfig stepContent)

/-- test metadata as consumed by `serializeTestToInline`/`generateUpdates`. -/
structure Test where
  testId : Option JValue := none
  description : Option JValue := none
  detectSteps : Option JValue := none
  runOn : Option JValue := none
  steps : List Step := []

/-- embedding of `serializeTestToInline({test, commentFormat, fileExtension, syntaxFormat})`. -/
def serializeTestToInline (test : Test) (commentFormat? : Option String)
    (fileExtension : String) (syntaxFormat? : Option String) : String :=
  let format := jsOr commentFormat? (getCommentFormat fileExtension)
  let syn := jsOr syntaxFormat? "json"
  let formatConfig := (lookupCommentFormat format).getD htmlComment
  let t1 := if jsTruthyOpt test.testId then [("testId", test.testId.getD .null)] else []
  let t2 := if jsTruthyOpt test.description then
      [("description", test.description.getD .null)] else []
  let t3 := match test.detectSteps with
    | some v => [("detectSteps", v)]
    | none => []
  let t4 := if jsTruthyOpt test.runOn then [("runOn", test.runOn.getD .null)] else []
  wrapTestComment formatConfig (serializeToSyntax (t1 ++ t2 ++ t3 ++ t4) syn)

/-- embedding of `serializeTestEnd(commentFormat)`. -/
def serializeTestEnd (commentFormat : String) : String :=
  let formatConfig := (lookupCommentFormat commentFormat).getD htmlComment
  formatConfig.testEndOpen ++ formatConfig.testEndClose

/-! ### Update generation (`generateUpdates`) -/

/-- a sequential `.map` whose callback can throw: the first error aborts the
whole traversal, as a JavaScript exception propagates out of the loop. -/
def mapMEx {α β : Type} (f : α → Except String β) : List α → Except String (List β)
  | [] => .ok []
  | x :: xs =>
      match f x with
      | .error e => .error e
      | .ok y =>
          match mapMEx f xs with
          | .error e => .error e
          | .ok ys => .ok (y :: ys)

/-- the step update produced for one assignment. -/
def stepUpdateOf (commentFormat syntaxFormat : String) (matched : Assignment) :
    Except String Update :=
  match serializeStepToInline matched.step (some commentFormat) "" (some syntaxFormat) with
  | .error e => .error e
  | .ok rendered =>
      .ok { offset :=
              match matched.contentMatch with
              | some (_, m) => m.endOffset
              | none => matched.suggestedOffset
            newContent := rendered
            insertAfter := matched.contentMatch.isSome
            type := "step"
            unmatched := matched.unmatched
            matchedTo := matched.contentMatch.map (fun im => im.2.matchText) }

/-- embedding of `generateUpdates(matchedSteps, test, commentFormat, syntaxFormat)`. -/
def generateUpdates (matchedSteps : List Assignment) (test : Test)
    (commentFormat syntaxFormat : String) : Except String (List Update) :=
  let hasMeta := jsTruthyOpt test.testId || jsTruthyOpt test.description
  let startUpdates : List Update :=
    if hasMeta then
      let offset :=
        match matchedSteps.head? with
        | some fs =>
            match fs.contentMatch with
            | some (_, m) => m.offset
            | none => fs.suggestedOffset
        | none => 0
      [{ offset := offset
         newContent := serializeTestToInline test (some commentFormat) "" (some syntaxFormat)
         insertAfter := false
         type := "testStart" }]
    else []
  match mapMEx (stepUpdateOf commentFormat syntaxFormat) matchedSteps with
  | .error e => .error e
  | .ok stepUpdates =>
      let endUpdates : List Update :=
        if hasMeta then
          let offset :=
            match matchedSteps.getLast? with
            | some ls =>
                match ls.contentMatch with
                | some (_, m) => m.endOffset
                | none => ls.suggestedOffset
            | none => 0
          [{ offset := offset + 1
             newContent := serializeTestEnd commentFormat
             insertAfter := true
             type := "testEnd" }]
        else []
      .ok (startUpdates ++ stepUpdates ++ endUpdates)

/-! ### Pattern loading (`getMarkupPatterns` and `DEFAULT_MARKUP_PATTERNS`) -/

/-- embedding of `DEFAULT_MARKUP_PATTERNS.markdown`. -/
def markdownPatterns : List MarkupPattern :=
  [ { name := "checkHyperlink"
      regexes := [⟨"(?<!!)\\[[^\\]]+\\]\\(\\s*(https?:\\/\\/[^\\s)]+)(?:\\s+\"[^\"]*\")?\\s*\\)"⟩]
      actions := ["checkLink"]
      captureGroups := [("url", 1)] },
    { name := "clickOnscreenText"
      regexes := [⟨"\\b(?:[Cc]lick|[Tt]ap|[Ll]eft-click|[Cc]hoose|[Ss]elect|[Cc]heck)\\b\\s+\\*\\*((?:(?!\\*\\*).)+)\\*\\*"⟩]
      actions := ["click"]
      captureGroups := [("text", 1)] },
    { name := "findOnscreenText"
      regexes := [⟨"\\*\\*((?:(?!\\*\\*).)+)\\*\\*"⟩]
      actions := ["find"]
      captureGroups := [("text", 1)] },
    { name := "goToUrl"
      regexes := [⟨"\\b(?:[Gg]o\\s+to|[Oo]pen|[Nn]avigate\\s+to|[Vv]isit|[Aa]ccess|[Pp]roceed\\s+to|[Ll]aunch)\\b\\s+\\[[^\\]]+\\]\\(\\s*(https?:\\/\\/[^\\s)]+)(?:\\s+\"[^\"]*\")?\\s*\\)"⟩]
      actions := ["goTo"]
      captureGroups := [("url", 1)] },
    { name := "typeText"
      regexes := [⟨"\\b(?:[Pp]ress|[Ee]nter|[Tt]ype)\\b\\s+\"([^\"]+)\""⟩]
      actions := ["type"]
      captureGroups := [("keys", 1)] },
    { name := "screenshotImage"
      regexes := [⟨"!\\[[^\\]]*\\]\\(\\s*([^\\s)]+)(?:\\s+\"[^\"]*\")?\\s*\\)"⟩]
      actions := ["screenshot"]
      captureGroups := [("path", 1)] } ]

/-- embedding of `DEFAULT_MARKUP_PATTERNS.html`. -/
def htmlPatterns : List MarkupPattern :=
  [ { name := "checkHyperlink"
      regexes := [⟨"<a\\s+[^>]*href=\"(https?:\\/\\/[^\"]+)\"[^>]*>"⟩]
      actions := ["checkLink"]
      captureGroups := [("url", 1)] },
    { name := "clickOnscreenText"
      regexes := [⟨"\\b(?:[Cc]lick|[Tt]ap)\\b\\s+<(?:strong|b)>((?:(?!<\\/(?:strong|b)>).)+)<\\/(?:strong|b)>"⟩]
      actions := ["click"]
      captureGroups := [("text", 1)] },
    { name := "findOnscreenText"
      regexes := [⟨"<(?:strong|b)>((?:(?!<\\/(?:strong|b)>).)+)<\\/(?:strong|b)>"⟩]
      actions := ["find"]
      captureGroups := [("text", 1)] } ]

/-- embedding of `DEFAULT_MARKUP_PATTERNS.asciidoc`. -/
def asciidocPatterns : List MarkupPattern :=
  [ { name := "checkHyperlink"
      regexes := [⟨"https?:\\/\\/[^\\s\\[]+\\[[^\\]]*\\]"⟩]
      actions := ["checkLink"]
      captureGroups := [("url", 0)] },
    { name := "clickOnscreenText"
      regexes := [⟨"\\b(?:[Cc]lick|[Tt]ap)\\b\\s+\\*([^*]+)\\*"⟩]
      actions := ["click"]
      captureGroups := [("text", 1)] },
    { name := "findOnscreenText"
      regexes := [⟨"\\*([^*]+)\\*"⟩]
      actions := ["find"]
      captureGroups := [("text", 1)] } ]

/-- embedding of `DEFAULT_MARKUP_PATTERNS.xml`. -/
def xmlPatterns : List MarkupPattern :=
  [ { name := "checkHyperlink"
      regexes := [⟨"<xref\\s+[^>]*href=\"(https?:\\/\\/[^\"]+)\"[^>]*>"⟩]
      actions := ["checkLink"]
      captureGroups := [("url", 1)] },
    { name := "clickUiControl"
      regexes := [⟨"(?:[Cc]lick|[Tt]ap|[Ss]elect)\\s+(?:the\\s+)?<uicontrol>([^<]+)<\\/uicontrol>"⟩]
      actions := ["click"]
      captureGroups := [("text", 1)] },
    { name := "findUiControl"
      regexes := [⟨"<uicontrol>([^<]+)<\\/uicontrol>"⟩]
      actions := ["find"]
      captureGroups := [("text", 1)] } ]

/-- the table `DEFAULT_MARKUP_PATTERNS` keyed by file type. -/
def DEFAULT_MARKUP_PATTERNS : List (String × List MarkupPattern) :=
  [("markdown", markdownPatterns), ("html", htmlPatterns),
   ("asciidoc", asciidocPatterns), ("xml", xmlPatterns)]

/-- a `fileTypes[...].markup` entry of the config (regex sources not yet
compiled). -/
structure CfgMarkupPattern where
  name : String := ""
  regex : List String := []
  actions : List String := []
  captureGroups : List (String × Nat) := []

/-- one `customPatterns` entry: `{name, regex, action, valueGroup}`. -/
structure CustomPattern where
  name : String := ""
  regex : String := ""
  action : String := ""
  valueGroup : Option Nat := none

/-- one entry of the config's `fileTypes` array. -/
structure FileTypeCfg where
  name : String := ""
  markup : Option (List CfgMarkupPattern) := none

/-- the parts of a Doc Detective config consumed by `getMarkupPatterns`
(the `fileTypes` array form; the object form resolves the same lookup). -/
structure Config where
  fileTypes : Option (List FileTypeCfg) := none
  customPatterns : Option (List (String × List CustomPattern)) := none

/-- embedding of `getMarkupPatterns(fileType, config)`, with `compile` standing for the
fallible `new RegExp(src, 'g')` constructor. No error handling surrounds the
`.map` calls that compile configured regexes, so the first failing pattern
aborts the whole function (the exception propagates). Note that the
`customPatterns` branch only runs when `config.fileTypes` is present, exactly
as in the source (`if (config?.fileTypes) { ... }` encloses both branches). -/
def getMarkupPatterns (compile : String → Except String JRegex)
    (fileType : String) (config : Option Config) : Except String (List MarkupPattern) :=
  let patterns :=
    ((DEFAULT_MARKUP_PATTERNS.find? (fun p => p.1 == fileType)).map (·.2)).getD
      markdownPatterns
  match config with
  | none => .ok patterns
  | some cfg =>
      match cfg.fileTypes with
      | none => .ok patterns
      | some fts =>
          let fileTypeConfig := fts.find? (fun ft => ft.name == fileType)
          let patterns2E :=
            match fileTypeConfig with
            | some ftc =>
                match ftc.markup with
                | some mus =>
                    match mapMEx (fun (p : CfgMarkupPattern) =>
                        match mapMEx compile p.regex with
                        | .error e => .error e
                        | .ok rs => .ok { name := p.name, regexes := rs,
                                          actions := p.actions,
                                          captureGroups := p.captureGroups
                                          : MarkupPattern }) mus with
                    | .error e => Except.error e
                    | .ok configPatterns => Except.ok (patterns ++ configPatterns)
                | none => Except.ok patterns
            | none => Except.ok patterns
          match patterns2E with
          | .error e => .error e
          | .ok patterns2 =>
              match (cfg.customPatterns.bind (fun cps =>
                  (cps.find? (fun (e : String × List CustomPattern) => e.1 == fileType)).map (·.2))) with
              | some plist =>
                  match mapMEx (fun (p : CustomPattern) =>
                      match compile p.regex with
                      | .error e => .error e
                      | .ok r => .ok { name := p.name, regexes := [r],
                                       actions := [p.action],
                                       captureGroups :=
                                         [("value",
                                           match p.valueGroup with
                                           | some n => if n = 0 then 1 else n
                                           | none => 1)]
                                       : MarkupPattern }) plist with
                  | .error e => .error e
                  | .ok customCompiled => .ok (patterns2 ++ customCompiled)
              | none => .ok patterns2

/-! ### Concrete inputs used by counterexamples and witnesses -/

/-- document for the batch-mutator counterexample. -/
def exDocHello : List Char := "hello world\n".toList

/-- same-line operation with the higher offset. -/
def exOpAt6 : Update := { offset := 6, newContent := "AAAA", insertAfter := false, type := "step" }

/-- same-line operation with the lower offset. -/
def exOpAt3 : Update := { offset := 3, newContent := "BB", insertAfter := false, type := "step" }

/-- out-of-bounds operation for the C8 counterexample. -/
def exOpOut : Update := { offset := 10, newContent := "XX", insertAfter := true, type := "step" }

/-- a `checkLink` step whose value equals the first match's captured URL. -/
def exStepLink : Step := [("checkLink", .str "https://a.com")]

/-- a `type` step matching nothing in the example match lists. -/
def exStepType : Step := [("type", .str "q")]

/-- a `find` step sharing no value content with the second match. -/
def exStepFind : Step := [("find", .str "qqq")]

/-- a `find` step whose value equals the second match's capture. -/
def exStepFindZ : Step := [("find", .str "zzz")]

/-- a match at offset 100 accepted by `exStepLink` with score 1. -/
def exMatchLink : ContentMatch :=
  { patternName := "checkHyperlink"
    actions := ["checkLink"]
    captureGroups := [("url", 1)]
    matchText := "[Example](https://a.com)"
    captures := [some "https://a.com"]
    offset := 100
    endOffset := 110
    lineNumber := 5 }

/-- a `find` match at offset 50 (before `exMatchLink`). -/
def exMatchFind : ContentMatch :=
  { patternName := "findOnscreenText"
    actions := ["find"]
    captureGroups := [("text", 1)]
    matchText := "**zzz**"
    captures := [some "zzz"]
    offset := 50
    endOffset := 60
    lineNumber := 3 }

/-- a `find` match whose value shares nothing with `exStepFind`. -/
def exMatchBeta : ContentMatch :=
  { patternName := "findOnscreenText"
    actions := ["find"]
    captureGroups := [("text", 1)]
    matchText := "**beta**"
    captures := [some "beta"]
    offset := 0
    endOffset := 8
    lineNumber := 1 }

/-- a step carrying truthy `stepId` metadata besides its single action field. -/
def exStepWithId : Step := [("click", .str "x"), ("stepId", .str "s1")]

/-- the `new RegExp` model used in the C7 example: the source `"("` fails to
compile, everything else succeeds. -/
def exBadCompile : String → Except String JRegex := fun s =>
  if s = "(" then .error "Invalid regular expression" else .ok ⟨s⟩

/-- a config with one bad and one good custom markdown pattern. -/
def exCfgBadPattern : Config :=
  { fileTypes := some []
    customPatterns := some
      [("markdown",
        [{ name := "bad", regex := "(", action := "click", valueGroup := none },
         { name := "good", regex := "ok", action := "find", valueGroup := none }])] }

/-! ### Declarative specification of the assignment engine -/

/-- the fallback position an unmatched step receives, as a function of the
previous list entry: that entry's match end offset if it was matched, else 0
(also 0 for the very first step). -/
def prevSuggested (last? : Option Assignment) : Nat :=
  match last? with
  | some la =>
      match la.contentMatch with
      | some (_, pm) => pm.endOffset
      | none => 0
  | none => 0

/-- declarative characterisation of one engine step: the produced assignment
either picks an unused candidate of maximal adjusted score, that score being
at least `0.3`, or is unmatched because every unused candidate's adjusted
score is below `0.3`, in which case it carries the `prevSuggested` fallback
offset. `usedMem` is the set of already-consumed match indices and `last?`
the previously produced assignment (if any). -/
def stepSpecHolds (cms : List ContentMatch) (last? : Option Assignment)
    (usedMem : Nat → Prop) (s : Step) (a : Assignment) : Prop :=
  (∃ j m, a.contentMatch = some (j, m) ∧ a.unmatched = false ∧
     cms.get? j = some m ∧ ¬ usedMem j ∧
     a.score = candScore s last? m ∧ 3/10 ≤ a.score ∧
     (∀ j' m', cms.get? j' = some m' → ¬ usedMem j' →
        candScore s last? m' ≤ a.score)) ∨
  (a.contentMatch = none ∧ a.unmatched = true ∧
     a.suggestedOffset = prevSuggested last? ∧
     (∀ j' m', cms.get? j' = some m' → ¬ usedMem j' →
        candScore s last? m' < 3/10))

/-- the reference offset the claim C3 prescribes: the start offset of the
most recent *accepted* assignment among the first `i` entries. This follows
the specification text, for comparison with the code's behaviour. -/
def specPrevAcceptedOffset (l : List Assignment) (i : Nat) : Option Nat :=
  ((l.take i).filterMap (fun a => a.contentMatch.map (fun im => im.2.offset))).getLast?

/-! ### lemmas about the batch mutator -/

theorem findLineStart_le (content : List Char) : ∀ o, findLineStart content o ≤ o := by
  intro o
  induction o with
  | zero => simp [findLineStart]
  | succ p ih =>
      simp only [findLineStart]
      split
      · exact Nat.le_refl _
      · exact Nat.le_succ_of_le ih

theorem findLineStart_le_length (content : List Char) :
    ∀ o, findLineStart content o ≤ content.length := by
  intro o
  induction o with
  | zero => simp [findLineStart]
  | succ p ih =>
      simp only [findLineStart]
      split
      · next h =>
          have : p < content.length := by
            by_contra hge
            rw [List.getElem?_eq_none (Nat.le_of_not_lt hge)] at h; exact absurd h (by simp)
          omega
      · exact ih

theorem findLineStart_mono (content : List Char) {o₁ o₂ : Nat} (h : o₁ ≤ o₂) :
    findLineStart content o₁ ≤ findLineStart content o₂ := by
  induction o₂ with
  | zero =>
      have : o₁ = 0 := Nat.le_zero.mp h
      subst this; exact Nat.le_refl _
  | succ p ih =>
      rcases Nat.lt_or_ge o₁ (p + 1) with h1 | h2
      · have hle := ih (Nat.lt_succ_iff.mp h1)
        have hstep : findLineStart content p ≤ findLineStart content (p + 1) := by
          simp only [findLineStart]
          split
          · exact Nat.le_succ_of_le (findLineStart_le content p)
          · exact Nat.le_refl _
        exact Nat.le_trans hle hstep
      · have : o₁ = p + 1 := Nat.le_antisymm h h2
        subst this; exact Nat.le_refl _

theorem le_findLineEndAux : ∀ (l : List Char) (pos : Nat), pos ≤ findLineEndAux l pos := by
  intro l
  induction l with
  | nil => intro pos; simp [findLineEndAux]
  | cons c rest ih =>
      intro pos
      simp only [findLineEndAux]
      split
      · omega
      · have := ih (pos + 1)
        omega

theorem le_findLineEnd (content : List Char) (pos : Nat) : pos ≤ findLineEnd content pos :=
  le_findLineEndAux _ pos

theorem mem_insertSortedBy {α : Type} (le : α → α → Bool) (u : α) :
    ∀ (l : List α) (x : α), x ∈ insertSortedBy le u l ↔ x = u ∨ x ∈ l := by
  intro l
  induction l with
  | nil => intro x; simp [insertSortedBy]
  | cons v rest ih =>
      intro x
      simp only [insertSortedBy]
      split
      · simp [or_comm, or_assoc, or_left_comm]
      · simp [ih]
        tauto

theorem perm_insertSortedBy {α : Type} (le : α → α → Bool) (u : α) :
    ∀ (l : List α), List.Perm (insertSortedBy le u l) (u :: l) := by
  intro l
  induction l with
  | nil => simp [insertSortedBy]
  | cons v rest ih =>
      simp only [insertSortedBy]
      split
      · exact List.Perm.refl _
      · exact (List.Perm.cons v ih).trans (List.Perm.swap u v rest)

theorem perm_sortedBy {α : Type} (le : α → α → Bool) :
    ∀ (l : List α), List.Perm (sortedBy le l) l := by
  intro l
  induction l with
  | nil => exact List.Perm.refl _
  | cons x rest ih =>
      have h1 : sortedBy le (x :: rest) = insertSortedBy le x (sortedBy le rest) := rfl
      rw [h1]
      exact (perm_insertSortedBy le x _).trans (List.Perm.cons x ih)

theorem pairwise_insertSortedBy {α : Type} (le : α → α → Bool) (r : α → α → Prop)
    (h1 : ∀ a b, le a b = true → r a b) (h2 : ∀ a b, le a b = false → r b a)
    (htr : ∀ a b c, r a b → r b c → r a c) (u : α) :
    ∀ (l : List α), l.Pairwise r → (insertSortedBy le u l).Pairwise r := by
  intro l
  induction l with
  | nil => intro _; simp [insertSortedBy]
  | cons v rest ih =>
      intro hp
      rcases List.pairwise_cons.mp hp with ⟨hv, hrest⟩
      simp only [insertSortedBy]
      split
      · next hle =>
          refine List.pairwise_cons.mpr ⟨?_, hp⟩
          intro x hx
          rcases List.mem_cons.mp hx with rfl | hx'
          · exact h1 _ _ hle
          · exact htr _ _ _ (h1 _ _ hle) (hv x hx')
      · next hnle =>
          refine List.pairwise_cons.mpr ⟨?_, ih hrest⟩
          intro x hx
          rcases (mem_insertSortedBy le u rest x).mp hx with rfl | hx'
          · exact h2 _ _ (Bool.eq_false_iff.mpr (by simpa using hnle))
          · exact hv x hx'

theorem pairwise_sortedBy {α : Type} (le : α → α → Bool) (r : α → α → Prop)
    (h1 : ∀ a b, le a b = true → r a b) (h2 : ∀ a b, le a b = false → r b a)
    (htr : ∀ a b c, r a b → r b c → r a c) :
    ∀ (l : List α), (sortedBy le l).Pairwise r := by
  intro l
  induction l with
  | nil => simp [sortedBy]
  | cons x rest ih =>
      have h : sortedBy le (x :: rest) = insertSortedBy le x (sortedBy le rest) := rfl
      rw [h]
      exact pairwise_insertSortedBy le r h1 h2 htr x _ ih

theorem sortUpdatesDesc_perm (l : List Update) : List.Perm (sortUpdatesDesc l) l :=
  perm_sortedBy _ l

theorem sortUpdatesDesc_sorted (l : List Update) :
    (sortUpdatesDesc l).Pairwise (fun a b => b.offset ≤ a.offset) := by
  refine pairwise_sortedBy _ _ ?_ ?_ ?_ l
  · intro a b h; exact of_decide_eq_true h
  · intro a b h
    have := of_decide_eq_false h
    omega
  · intro a b c hab hbc; omega

/-- with pairwise-distinct offsets, the stable descending sort of any
permutation of a list is the same list: the comparator determines a unique
strictly-descending arrangement. -/
theorem sortUpdatesDesc_eq_of_perm {l₁ l₂ : List Update} (hp : List.Perm l₁ l₂)
    (hd : l₁.Pairwise (fun a b => a.offset ≠ b.offset)) :
    sortUpdatesDesc l₁ = sortUpdatesDesc l₂ := by
  have hps : List.Perm (sortUpdatesDesc l₁) (sortUpdatesDesc l₂) :=
    (sortUpdatesDesc_perm l₁).trans (hp.trans (sortUpdatesDesc_perm l₂).symm)
  have hsym : ∀ {x y : Update}, x.offset ≠ y.offset → y.offset ≠ x.offset := fun h => h.symm
  have hd1 : (sortUpdatesDesc l₁).Pairwise (fun a b => a.offset ≠ b.offset) :=
    ((sortUpdatesDesc_perm l₁).pairwise_iff hsym).mpr hd
  have hd2 : (sortUpdatesDesc l₂).Pairwise (fun a b => a.offset ≠ b.offset) :=
    (hps.pairwise_iff hsym).mp hd1
  have hstrict : ∀ (l : List Update), l.Pairwise (fun a b => b.offset ≤ a.offset) →
      l.Pairwise (fun a b => a.offset ≠ b.offset) →
      l.Pairwise (fun a b : Update => b.offset < a.offset) := by
    intro l hle hne
    exact (hle.and hne).imp (fun h => by omega)
  have hs1 := hstrict _ (sortUpdatesDesc_sorted l₁) hd1
  have hs2 := hstrict _ (sortUpdatesDesc_sorted l₂) hd2
  exact @List.eq_of_perm_of_sorted Update (fun a b => b.offset < a.offset)
    ⟨fun a b h1 h2 => absurd (Nat.lt_trans h1 h2) (Nat.lt_irrefl _)⟩ _ _ hps hs1 hs2

/-- an applied update leaves every position strictly before the start of the
line containing its own offset untouched. -/
theorem applyUpdate_untouched_front (content : List Char) (u : Update) {k : Nat}
    (hk : k ≤ findLineStart content u.offset) :
    (applyUpdate content u).take k = content.take k := by
  have hsl : findLineStart content u.offset ≤ content.length := findLineStart_le_length _ _
  have hkl : k ≤ content.length := Nat.le_trans hk hsl
  unfold applyUpdate
  split
  · have hse : findLineStart content u.offset ≤ findLineEnd content u.offset :=
      Nat.le_trans (findLineStart_le _ _) (le_findLineEnd _ _)
    have hke : k ≤ findLineEnd content u.offset := Nat.le_trans hk hse
    have hlen : k ≤ (content.take (findLineEnd content u.offset)).length := by
      simp only [List.length_take]
      omega
    rw [List.append_assoc, List.append_assoc, List.append_assoc]
    rw [List.take_append_of_le_length hlen]
    rw [List.take_take]
    congr 1
    omega
  · have hlen : k ≤ (content.take (findLineStart content u.offset)).length := by
      simp only [List.length_take]
      omega
    rw [List.append_assoc, List.append_assoc, List.append_assoc]
    rw [List.take_append_of_le_length hlen]
    rw [List.take_take]
    congr 1
    omega

/-! ### C9: the content scanner -/

/-- C9: for every document text and pattern set (and any behaviour of the host
regex engine), the content scanner returns its match list sorted ascending by
start offset, and two invocations on the same inputs return identical ordered
match lists; the scan takes no step list at all, so it is independent of one. -/
theorem c9_scan_sorted_and_deterministic (exec : JRegex → String → List RawMatch)
    (content : String) (patterns : List MarkupPattern) :
    (findContentMatches exec content patterns).Pairwise (fun a b => a.offset ≤ b.offset) ∧
    findContentMatches exec content patterns = findContentMatches exec content patterns := by
  constructor
  · refine pairwise_sortedBy _ _ ?_ ?_ ?_ _
    · intro a b h; exact of_decide_eq_true h
    · intro a b h
      have := of_decide_eq_false h
      omega
    · intro a b c h1 h2; omega
  · rfl

/-! ### C1: batch-mutator ordering -/

/-- C1 counterexample: in the batch `[exOpAt6, exOpAt3]` both operations
resolve to the same line; descending order applies `exOpAt6` first, and that
insertion (spliced at the line start, position 0) shifts the text at the
not-yet-applied operation's offset 3: the character there changes from `l` to
`A`. This refutes the claim that no applied insertion ever shifts the offset
of a not-yet-applied operation. -/
theorem c1_counterexample :
    (sortUpdatesDesc [exOpAt6, exOpAt3]).head? = some exOpAt6 ∧
    exOpAt3.offset < exOpAt6.offset ∧
    (applyUpdate exDocHello exOpAt6).get? exOpAt3.offset ≠ exDocHello.get? exOpAt3.offset := by
  refine ⟨by decide, by decide, by decide⟩

/-- C1 (amended): an applied insertion can shift same-line positions below its
own offset, but it never modifies text strictly before the start of the line
containing any not-yet-applied (i.e. lower-or-equal-offset) operation's
offset; and for operations with pairwise-distinct offsets the final document
of `batchUpdateContent` is identical for every permutation of the input
operation list, because the descending sort then has a unique result. -/
theorem c1_amended_batch_order (content : List Char) (u : Update) (o' : Nat)
    (h : o' ≤ u.offset) (l₁ l₂ : List Update) (hp : List.Perm l₁ l₂)
    (hd : l₁.Pairwise (fun a b => a.offset ≠ b.offset)) :
    (applyUpdate content u).take (findLineStart content o') =
      content.take (findLineStart content o') ∧
    batchUpdateContent content l₁ = batchUpdateContent content l₂ := by
  constructor
  · exact applyUpdate_untouched_front content u (findLineStart_mono content h)
  · unfold batchUpdateContent
    by_cases h1 : l₁.isEmpty
    · have h2 : l₂.isEmpty := by
        cases l₂ with
        | nil => rfl
        | cons x xs =>
            cases l₁ with
            | nil => exact absurd hp.symm (by simp [List.Perm])
            | cons y ys => simp [List.isEmpty] at h1
      simp [h1, h2]
    · have h2 : ¬ l₂.isEmpty := by
        cases l₂ with
        | nil =>
            cases l₁ with
            | nil => simp at h1
            | cons y ys => exact absurd hp (by simp [List.Perm])
        | cons x xs => simp [List.isEmpty]
      simp only [h1, h2, if_neg, Bool.false_eq_true, ite_false]
      rw [sortUpdatesDesc_eq_of_perm hp hd]

/-- C1 witness: the amended theorem applied to the two-line document
`"ab\ncd"`, an operation at offset 4, prefix offset 3, and the two orderings
of a distinct-offset operation pair. -/
theorem c1_amended_batch_order_witness :
    (applyUpdate "ab\ncd".toList exOpOut).take (findLineStart "ab\ncd".toList 3) =
      "ab\ncd".toList.take (findLineStart "ab\ncd".toList 3) ∧
    batchUpdateContent "ab\ncd".toList [exOpAt6, exOpAt3] =
      batchUpdateContent "ab\ncd".toList [exOpAt3, exOpAt6] :=
  c1_amended_batch_order "ab\ncd".toList exOpOut 3 (by decide)
    [exOpAt6, exOpAt3] [exOpAt3, exOpAt6]
    (List.Perm.swap exOpAt3 exOpAt6 []) (by decide)

/-! ### C8: out-of-bounds offsets -/

/-- C8 counterexample: the batch mutator performs no bounds check. The
document `"ab"` has length 2, yet the batch containing the single operation
`exOpOut` at offset 10 is applied (the text is appended at the end of the
document), so the batch is not aborted and the document does not stay
unchanged. -/
theorem c8_counterexample :
    2 < exOpOut.offset ∧
    "ab".toList.length = 2 ∧
    batchUpdateContent "ab".toList [exOpOut] = "abXX\n".toList ∧
    batchUpdateContent "ab".toList [exOpOut] ≠ "ab".toList := by
  refine ⟨by decide, by decide, by decide, by decide⟩

/-- C8 (amended): an operation whose offset lies at or past the end of the
document is not detected; for `insertAfter = true` the splice point becomes
the document end (the forward scan never runs), so the batch is still applied
and the rendered text is appended after the whole document, prefixed by the
indentation of its final line. -/
theorem c8_amended_no_bounds_check (content : List Char) (u : Update)
    (hlen : content.length ≤ u.offset) (hafter : u.insertAfter = true) :
    batchUpdateContent content [u] =
      content ++ getLineIndentation content (findLineStart content u.offset) ++
        u.newContent.toList ++ ['\n'] := by
  have hle : findLineEnd content u.offset = u.offset := by
    unfold findLineEnd
    rw [List.drop_eq_nil_of_le hlen]
    rfl
  have h1 : batchUpdateContent content [u] = applyUpdate content u := by
    unfold batchUpdateContent sortUpdatesDesc sortedBy
    simp [insertSortedBy]
  rw [h1]
  simp only [applyUpdate, hafter, if_true, hle]
  rw [List.take_of_length_le hlen, List.drop_eq_nil_of_le hlen]
  simp

/-- C8 witness: the amended theorem applied to `"ab"` and `exOpOut`. -/
theorem c8_amended_no_bounds_check_witness :
    batchUpdateContent "ab".toList [exOpOut] =
      "ab".toList ++ getLineIndentation "ab".toList (findLineStart "ab".toList exOpOut.offset) ++
        exOpOut.newContent.toList ++ ['\n'] :=
  c8_amended_no_bounds_check "ab".toList exOpOut (by decide) (by decide)

/-! ### Engine lemmas -/

theorem findBestGo_spec (s : Step) (last? : Option Assignment) (used : List Nat) :
    ∀ (l : List (Nat × ContentMatch)) (best : Option (Nat × ContentMatch) × ℚ),
      best.2 ≤ (findBestGo s last? used l best).2 ∧
      (∀ jm ∈ l, jm.1 ∉ used →
        candScore s last? jm.2 ≤ (findBestGo s last? used l best).2) ∧
      (findBestGo s last? used l best = best ∨
        ∃ jm ∈ l, jm.1 ∉ used ∧
          findBestGo s last? used l best = (some jm, candScore s last? jm.2)) := by
  intro l
  induction l with
  | nil =>
      intro best
      refine ⟨le_refl _, ?_, Or.inl rfl⟩
      intro jm hjm
      exact absurd hjm (List.not_mem_nil jm)
  | cons p rest ih =>
      intro best
      obtain ⟨j, m⟩ := p
      by_cases hu : j ∈ used
      · have heq : findBestGo s last? used ((j, m) :: rest) best =
            findBestGo s last? used rest best := by
          simp [findBestGo, hu]
        rw [heq]
        obtain ⟨ih1, ih2, ih3⟩ := ih best
        refine ⟨ih1, ?_, ?_⟩
        · intro jm hjm hnu
          rcases List.mem_cons.mp hjm with rfl | hm
          · exact absurd hu hnu
          · exact ih2 jm hm hnu
        · rcases ih3 with h | ⟨jm, hjm, hnu, hres⟩
          · exact Or.inl h
          · exact Or.inr ⟨jm, List.mem_cons_of_mem _ hjm, hnu, hres⟩
      · by_cases hsc : best.2 < candScore s last? m
        · have heq : findBestGo s last? used ((j, m) :: rest) best =
              findBestGo s last? used rest (some (j, m), candScore s last? m) := by
            simp [findBestGo, hu, hsc]
          rw [heq]
          obtain ⟨ih1, ih2, ih3⟩ := ih (some (j, m), candScore s last? m)
          refine ⟨?_, ?_, ?_⟩
          · exact le_trans (le_of_lt hsc) ih1
          · intro jm hjm hnu
            rcases List.mem_cons.mp hjm with rfl | hm
            · exact ih1
            · exact ih2 jm hm hnu
          · rcases ih3 with h | ⟨jm, hjm, hnu, hres⟩
            · exact Or.inr ⟨(j, m), List.mem_cons_self _ _, hu, h⟩
            · exact Or.inr ⟨jm, List.mem_cons_of_mem _ hjm, hnu, hres⟩
        · have heq : findBestGo s last? used ((j, m) :: rest) best =
              findBestGo s last? used rest best := by
            simp only [findBestGo, if_neg hu]
            rw [if_neg hsc]
          rw [heq]
          obtain ⟨ih1, ih2, ih3⟩ := ih best
          refine ⟨ih1, ?_, ?_⟩
          · intro jm hjm hnu
            rcases List.mem_cons.mp hjm with rfl | hm
            · exact le_trans (le_of_not_lt hsc) ih1
            · exact ih2 jm hm hnu
          · rcases ih3 with h | ⟨jm, hjm, hnu, hres⟩
            · exact Or.inl h
            · exact Or.inr ⟨jm, List.mem_cons_of_mem _ hjm, hnu, hres⟩

theorem enumIdx_mem_iff :
    ∀ (cms : List ContentMatch) (i0 j : Nat) (m : ContentMatch),
      (j, m) ∈ enumIdx i0 cms ↔ (i0 ≤ j ∧ cms.get? (j - i0) = some m) := by
  intro cms
  induction cms with
  | nil =>
      intro i0 j m
      simp [enumIdx]
  | cons m0 rest ih =>
      intro i0 j m
      simp only [enumIdx, List.mem_cons, ih (i0 + 1), Prod.mk.injEq]
      constructor
      · rintro (⟨h1, h2⟩ | ⟨hle, hget⟩)
        · subst h1
          subst h2
          refine ⟨le_refl _, ?_⟩
          simp
        · refine ⟨by omega, ?_⟩
          have hd : j - i0 = (j - (i0 + 1)) + 1 := by omega
          rw [hd]
          simpa using hget
      · rintro ⟨hle, hget⟩
        by_cases hj : j = i0
        · subst hj
          simp only [Nat.sub_self, List.get?_cons_zero, Option.some.injEq] at hget
          exact Or.inl ⟨rfl, hget.symm⟩
        · right
          refine ⟨by omega, ?_⟩
          have hd : j - i0 = (j - (i0 + 1)) + 1 := by omega
          rw [hd] at hget
          simpa using hget

theorem mem_enumIdx_zero {cms : List ContentMatch} {j : Nat} {m : ContentMatch} :
    (j, m) ∈ enumIdx 0 cms ↔ cms.get? j = some m := by
  rw [enumIdx_mem_iff]
  simp

theorem findBest_matched {s : Step} {cms : List ContentMatch} {used : List Nat}
    {last? : Option Assignment} {j : Nat} {m : ContentMatch} {bs : ℚ}
    (h : findBest s cms used last? = (some (j, m), bs)) :
    cms.get? j = some m ∧ j ∉ used ∧ bs = candScore s last? m ∧
    (∀ j' m', cms.get? j' = some m' → j' ∉ used → candScore s last? m' ≤ bs) := by
  obtain ⟨h1, h2, h3⟩ := findBestGo_spec s last? used (enumIdx 0 cms) (none, 0)
  rw [findBest] at h
  rcases h3 with heq | ⟨jm, hjm, hnu, hres⟩
  · rw [h] at heq
    have := congrArg Prod.fst heq
    simp at this
  · rw [h] at hres
    have hfst := congrArg Prod.fst hres
    have hsnd := congrArg Prod.snd hres
    simp only [Prod.fst, Prod.snd, Option.some.injEq] at hfst hsnd
    have hjm' : jm = (j, m) := hfst.symm
    subst hjm'
    refine ⟨mem_enumIdx_zero.mp hjm, hnu, by simpa using hsnd, ?_⟩
    intro j' m' hget hnu'
    have := h2 (j', m') (mem_enumIdx_zero.mpr hget) hnu'
    rw [h] at this
    simpa using this

theorem findBest_none {s : Step} {cms : List ContentMatch} {used : List Nat}
    {last? : Option Assignment} {bs : ℚ}
    (h : findBest s cms used last? = (none, bs)) :
    ∀ j' m', cms.get? j' = some m' → j' ∉ used → candScore s last? m' ≤ 0 := by
  obtain ⟨h1, h2, h3⟩ := findBestGo_spec s last? used (enumIdx 0 cms) (none, 0)
  rw [findBest] at h
  have hbs : bs = 0 := by
    rcases h3 with heq | ⟨jm, hjm, hnu, hres⟩
    · rw [h] at heq
      simpa using congrArg (fun p => p.2) heq
    · rw [h] at hres
      have := congrArg (fun p => p.1) hres
      simp at this
  intro j' m' hget hnu'
  have := h2 (j', m') (mem_enumIdx_zero.mpr hget) hnu'
  rw [h] at this
  simpa [hbs] using this

theorem stepSpecHolds_of_mem_iff {cms : List ContentMatch} {last? : Option Assignment}
    {P Q : Nat → Prop} {s : Step} {a : Assignment} (h : ∀ x, P x ↔ Q x)
    (hs : stepSpecHolds cms last? P s a) : stepSpecHolds cms last? Q s a := by
  unfold stepSpecHolds at hs ⊢
  rcases hs with ⟨j, m, h1, h2, h3, h4, h5, h6, h7⟩ | ⟨h1, h2, h3, h4⟩
  · exact Or.inl ⟨j, m, h1, h2, h3, fun hq => h4 ((h j).mpr hq), h5, h6,
      fun j' m' hg hq => h7 j' m' hg (fun hp => hq ((h j').mp hp))⟩
  · exact Or.inr ⟨h1, h2, h3,
      fun j' m' hg hq => h4 j' m' hg (fun hp => hq ((h j').mp hp))⟩

theorem usedOf_nil : usedOf [] = [] := rfl

theorem usedOf_cons_some {a : Assignment} {t : List Assignment} {j : Nat}
    (h : assignedIdx a = some j) : usedOf (a :: t) = j :: usedOf t := by
  simp [usedOf, List.filterMap_cons, h]

theorem usedOf_cons_none {a : Assignment} {t : List Assignment}
    (h : assignedIdx a = none) : usedOf (a :: t) = usedOf t := by
  simp [usedOf, List.filterMap_cons, h]

theorem unmatchedAssignment_suggested (s : Step) (i : Nat) (last? : Option Assignment) :
    (unmatchedAssignment s i last?).suggestedOffset = prevSuggested last? := rfl

theorem mstcGo_length (cms : List ContentMatch) :
    ∀ (pending : List Step) (i : Nat) (last? : Option Assignment) (used : List Nat),
      (mstcGo cms pending i last? used).length = pending.length := by
  intro pending
  induction pending with
  | nil => intro i last? used; rfl
  | cons s0 rest ih =>
      intro i last? used
      rcases hfb : findBest s0 cms used last? with ⟨bi, bs⟩
      cases bi with
      | some jm =>
          obtain ⟨j, m⟩ := jm
          by_cases hbs : 3/10 ≤ bs
          · simp [mstcGo, hfb, hbs, ih]
          · simp [mstcGo, hfb, hbs, ih]
      | none => simp [mstcGo, hfb, ih]

theorem get?_cons_pred {a0 : Assignment} {t : List Assignment} (k : Nat) :
    (a0 :: t).get? k = if k = 0 then some a0 else t.get? (k - 1) := by
  cases k with
  | zero => rfl
  | succ k' => simp

theorem mstcGo_spec (cms : List ContentMatch) :
    ∀ (pending : List Step) (i : Nat) (last? : Option Assignment) (used : List Nat)
      (k : Nat) (s : Step) (a : Assignment),
      pending.get? k = some s →
      (mstcGo cms pending i last? used).get? k = some a →
      stepSpecHolds cms
        (if k = 0 then last? else (mstcGo cms pending i last? used).get? (k - 1))
        (fun j => j ∈ used ∨ j ∈ usedOf ((mstcGo cms pending i last? used).take k))
        s a := by
  intro pending
  induction pending with
  | nil => intro i last? used k s a hs ha; simp at hs
  | cons s0 rest ih =>
      intro i last? used k s a hs ha
      rcases hfb : findBest s0 cms used last? with ⟨bi, bs⟩
      cases bi with
      | some jm =>
          obtain ⟨j, m⟩ := jm
          by_cases hbs : 3/10 ≤ bs
          · -- accepted step
            have hout : mstcGo cms (s0 :: rest) i last? used =
                ({ step := s0, stepIndex := i, contentMatch := some (j, m), score := bs
                   : Assignment }) ::
                  mstcGo cms rest (i + 1)
                    (some { step := s0, stepIndex := i, contentMatch := some (j, m),
                            score := bs }) (j :: used) := by
              simp [mstcGo, hfb, hbs]
            obtain ⟨hget, hju, hbsc, hmax⟩ := findBest_matched hfb
            rw [hout] at ha ⊢
            cases k with
            | zero =>
                simp only [List.get?_cons_zero, Option.some.injEq] at ha
                simp only [List.get?_cons_zero, Option.some.injEq] at hs
                subst ha
                subst hs
                simp only [if_pos rfl, List.take_zero, usedOf_nil]
                refine Or.inl ⟨j, m, rfl, rfl, hget, ?_, hbsc, hbs, ?_⟩
                · intro hj
                  rcases hj with hj | hj
                  · exact hju hj
                  · simp at hj
                · intro j' m' hg hn
                  exact hmax j' m' hg (fun hin => hn (Or.inl hin))
            | succ k' =>
                simp only [List.get?_cons_succ] at ha
                simp only [List.get?_cons_succ] at hs
                have hspec := ih (i + 1)
                  (some { step := s0, stepIndex := i, contentMatch := some (j, m),
                          score := bs }) (j :: used) k' s a hs ha
                have hlast : (if k' + 1 = 0 then last?
                    else (({ step := s0, stepIndex := i, contentMatch := some (j, m),
                             score := bs : Assignment }) ::
                      mstcGo cms rest (i + 1)
                        (some { step := s0, stepIndex := i, contentMatch := some (j, m),
                                score := bs }) (j :: used)).get? (k' + 1 - 1)) =
                    (if k' = 0 then
                      some { step := s0, stepIndex := i, contentMatch := some (j, m),
                             score := bs }
                     else (mstcGo cms rest (i + 1)
                        (some { step := s0, stepIndex := i, contentMatch := some (j, m),
                                score := bs }) (j :: used)).get? (k' - 1)) := by
                  simp only [Nat.succ_ne_zero, if_false, Nat.add_sub_cancel]
                  exact get?_cons_pred k'
                rw [hlast]
                refine stepSpecHolds_of_mem_iff ?_ hspec
                intro x
                have htk : (({ step := s0, stepIndex := i, contentMatch := some (j, m),
                               score := bs : Assignment }) ::
                    mstcGo cms rest (i + 1)
                      (some { step := s0, stepIndex := i, contentMatch := some (j, m),
                              score := bs }) (j :: used)).take (k' + 1) =
                    ({ step := s0, stepIndex := i, contentMatch := some (j, m), score := bs
                       : Assignment }) ::
                      (mstcGo cms rest (i + 1)
                        (some { step := s0, stepIndex := i, contentMatch := some (j, m),
                                score := bs }) (j :: used)).take k' := by
                  simp
                rw [htk, usedOf_cons_some (by rfl)]
                simp only [List.mem_cons]
                constructor
                · rintro ((rfl | hx) | hx)
                  · exact Or.inr (Or.inl rfl)
                  · exact Or.inl hx
                  · exact Or.inr (Or.inr hx)
                · rintro (hx | (rfl | hx))
                  · exact Or.inl (Or.inr hx)
                  · exact Or.inl (Or.inl rfl)
                  · exact Or.inr hx
          · -- best score below threshold: unmatched step
            have hout : mstcGo cms (s0 :: rest) i last? used =
                unmatchedAssignment s0 i last? ::
                  mstcGo cms rest (i + 1) (some (unmatchedAssignment s0 i last?)) used := by
              simp [mstcGo, hfb, hbs]
            obtain ⟨hget, hju, hbsc, hmax⟩ := findBest_matched hfb
            rw [hout] at ha ⊢
            cases k with
            | zero =>
                simp only [List.get?_cons_zero, Option.some.injEq] at ha hs
                subst ha
                subst hs
                simp only [if_pos rfl, List.take_zero, usedOf_nil]
                refine Or.inr ⟨rfl, rfl, unmatchedAssignment_suggested _ _ _, ?_⟩
                intro j' m' hg hn
                have h1 := hmax j' m' hg (fun hin => hn (Or.inl hin))
                have h2 : bs < 3/10 := lt_of_not_le hbs
                exact lt_of_le_of_lt h1 h2
            | succ k' =>
                simp only [List.get?_cons_succ] at ha hs
                have hspec := ih (i + 1) (some (unmatchedAssignment s0 i last?)) used k' s a
                  hs ha
                have hlast : (if k' + 1 = 0 then last?
                    else (unmatchedAssignment s0 i last? ::
                      mstcGo cms rest (i + 1) (some (unmatchedAssignment s0 i last?))
                        used).get? (k' + 1 - 1)) =
                    (if k' = 0 then some (unmatchedAssignment s0 i last?)
                     else (mstcGo cms rest (i + 1)
                        (some (unmatchedAssignment s0 i last?)) used).get? (k' - 1)) := by
                  simp only [Nat.succ_ne_zero, if_false, Nat.add_sub_cancel]
                  exact get?_cons_pred k'
                rw [hlast]
                refine stepSpecHolds_of_mem_iff ?_ hspec
                intro x
                have htk : (unmatchedAssignment s0 i last? ::
                    mstcGo cms rest (i + 1) (some (unmatchedAssignment s0 i last?))
                      used).take (k' + 1) =
                    unmatchedAssignment s0 i last? ::
                      (mstcGo cms rest (i + 1) (some (unmatchedAssignment s0 i last?))
                        used).take k' := by
                  simp
                rw [htk, usedOf_cons_none (by rfl)]
      | none =>
          -- no positively-scored candidate at all: unmatched step
          have hout : mstcGo cms (s0 :: rest) i last? used =
              unmatchedAssignment s0 i last? ::
                mstcGo cms rest (i + 1) (some (unmatchedAssignment s0 i last?)) used := by
            simp [mstcGo, hfb]
          have hall := findBest_none hfb
          rw [hout] at ha ⊢
          cases k with
          | zero =>
              simp only [List.get?_cons_zero, Option.some.injEq] at ha hs
              subst ha
              subst hs
              simp only [if_pos rfl, List.take_zero, usedOf_nil]
              refine Or.inr ⟨rfl, rfl, unmatchedAssignment_suggested _ _ _, ?_⟩
              intro j' m' hg hn
              have h1 := hall j' m' hg (fun hin => hn (Or.inl hin))
              have h2 : (0 : ℚ) < 3/10 := by norm_num
              exact lt_of_le_of_lt h1 h2
          | succ k' =>
              simp only [List.get?_cons_succ] at ha hs
              have hspec := ih (i + 1) (some (unmatchedAssignment s0 i last?)) used k' s a
                hs ha
              have hlast : (if k' + 1 = 0 then last?
                  else (unmatchedAssignment s0 i last? ::
                    mstcGo cms rest (i + 1) (some (unmatchedAssignment s0 i last?))
                      used).get? (k' + 1 - 1)) =
                  (if k' = 0 then some (unmatchedAssignment s0 i last?)
                   else (mstcGo cms rest (i + 1)
                      (some (unmatchedAssignment s0 i last?)) used).get? (k' - 1)) := by
                simp only [Nat.succ_ne_zero, if_false, Nat.add_sub_cancel]
                exact get?_cons_pred k'
              rw [hlast]
              refine stepSpecHolds_of_mem_iff ?_ hspec
              intro x
              have htk : (unmatchedAssignment s0 i last? ::
                  mstcGo cms rest (i + 1) (some (unmatchedAssignment s0 i last?))
                    used).take (k' + 1) =
                  unmatchedAssignment s0 i last? ::
                    (mstcGo cms rest (i + 1) (some (unmatchedAssignment s0 i last?))
                      used).take k' := by
                simp
              rw [htk, usedOf_cons_none (by rfl)]

theorem matchSteps_length (steps : List Step) (cms : List ContentMatch) :
    (matchStepsToContent steps cms).length = steps.length :=
  mstcGo_length cms steps 0 none []

theorem matchSteps_spec {steps : List Step} {cms : List ContentMatch} {k : Nat}
    {s : Step} {a : Assignment} (hs : steps.get? k = some s)
    (ha : (matchStepsToContent steps cms).get? k = some a) :
    stepSpecHolds cms
      (if k = 0 then none else (matchStepsToContent steps cms).get? (k - 1))
      (fun j => j ∈ usedOf ((matchStepsToContent steps cms).take k)) s a := by
  have h := mstcGo_spec cms steps 0 none [] k s a hs ha
  refine stepSpecHolds_of_mem_iff ?_ h
  intro x
  simp [matchStepsToContent]

theorem mstcGo_usedOf_props (cms : List ContentMatch) :
    ∀ (pending : List Step) (i : Nat) (last? : Option Assignment) (used : List Nat),
      (∀ x ∈ usedOf (mstcGo cms pending i last? used), x ∉ used) ∧
      (usedOf (mstcGo cms pending i last? used)).Nodup := by
  intro pending
  induction pending with
  | nil =>
      intro i last? used
      exact ⟨fun x hx => absurd hx (by simp [mstcGo, usedOf]), by simp [mstcGo, usedOf]⟩
  | cons s0 rest ih =>
      intro i last? used
      rcases hfb : findBest s0 cms used last? with ⟨bi, bs⟩
      cases bi with
      | some jm =>
          obtain ⟨j, m⟩ := jm
          by_cases hbs : 3/10 ≤ bs
          · have hout : mstcGo cms (s0 :: rest) i last? used =
                ({ step := s0, stepIndex := i, contentMatch := some (j, m), score := bs
                   : Assignment }) ::
                  mstcGo cms rest (i + 1)
                    (some { step := s0, stepIndex := i, contentMatch := some (j, m),
                            score := bs }) (j :: used) := by
              simp [mstcGo, hfb, hbs]
            obtain ⟨hget, hju, _, _⟩ := findBest_matched hfb
            obtain ⟨ih1, ih2⟩ := ih (i + 1)
              (some { step := s0, stepIndex := i, contentMatch := some (j, m), score := bs })
              (j :: used)
            rw [hout, usedOf_cons_some (by rfl)]
            constructor
            · intro x hx
              rcases List.mem_cons.mp hx with rfl | hx'
              · exact hju
              · intro hxu
                exact ih1 x hx' (List.mem_cons_of_mem _ hxu)
            · refine List.nodup_cons.mpr ⟨?_, ih2⟩
              intro hj
              exact ih1 j hj (List.mem_cons_self _ _)
          · have hout : mstcGo cms (s0 :: rest) i last? used =
                unmatchedAssignment s0 i last? ::
                  mstcGo cms rest (i + 1) (some (unmatchedAssignment s0 i last?)) used := by
              simp [mstcGo, hfb, hbs]
            obtain ⟨ih1, ih2⟩ := ih (i + 1) (some (unmatchedAssignment s0 i last?)) used
            rw [hout, usedOf_cons_none (by rfl)]
            exact ⟨ih1, ih2⟩
      | none =>
          have hout : mstcGo cms (s0 :: rest) i last? used =
              unmatchedAssignment s0 i last? ::
                mstcGo cms rest (i + 1) (some (unmatchedAssignment s0 i last?)) used := by
            simp [mstcGo, hfb]
          obtain ⟨ih1, ih2⟩ := ih (i + 1) (some (unmatchedAssignment s0 i last?)) used
          rw [hout, usedOf_cons_none (by rfl)]
          exact ⟨ih1, ih2⟩

theorem mstcGo_nil_unmatched :
    ∀ (pending : List Step) (i : Nat) (last? : Option Assignment) (used : List Nat),
      (match last? with
       | some la => la.contentMatch = none
       | none => True) →
      ∀ a ∈ mstcGo [] pending i last? used,
        a.contentMatch = none ∧ a.unmatched = true ∧ a.suggestedOffset = 0 := by
  intro pending
  induction pending with
  | nil => intro i last? used hinv a ha; simp [mstcGo] at ha
  | cons s0 rest ih =>
      intro i last? used hinv a ha
      have hfb : findBest s0 [] used last? = (none, 0) := rfl
      have hout : mstcGo [] (s0 :: rest) i last? used =
          unmatchedAssignment s0 i last? ::
            mstcGo [] rest (i + 1) (some (unmatchedAssignment s0 i last?)) used := by
        simp [mstcGo, hfb]
      rw [hout] at ha
      have hso : (unmatchedAssignment s0 i last?).suggestedOffset = 0 := by
        rw [unmatchedAssignment_suggested]
        cases last? with
        | none => rfl
        | some la =>
            simp only at hinv
            simp [prevSuggested, hinv]
      rcases List.mem_cons.mp ha with rfl | ha'
      · exact ⟨rfl, rfl, hso⟩
      · exact ih (i + 1) (some (unmatchedAssignment s0 i last?)) used (by rfl) a ha'

theorem nodup_usedOf_pos_inj :
    ∀ (l : List Assignment), (usedOf l).Nodup →
      ∀ (k₁ k₂ : Nat) (a₁ a₂ : Assignment) (j : Nat),
        l.get? k₁ = some a₁ → l.get? k₂ = some a₂ →
        assignedIdx a₁ = some j → assignedIdx a₂ = some j → k₁ = k₂ := by
  intro l
  induction l with
  | nil => intro _ k₁ k₂ a₁ a₂ j h1; simp at h1
  | cons a t ih =>
      intro hnd k₁ k₂ a₁ a₂ j h1 h2 hj1 hj2
      cases hai : assignedIdx a with
      | some j0 =>
          rw [usedOf_cons_some hai] at hnd
          obtain ⟨hnotin, hnd'⟩ := List.nodup_cons.mp hnd
          cases k₁ with
          | zero =>
              simp only [List.get?_cons_zero, Option.some.injEq] at h1
              subst h1
              cases k₂ with
              | zero => rfl
              | succ k₂' =>
                  exfalso
                  simp only [List.get?_cons_succ] at h2
                  have hja : j = j0 := by
                    rw [hai] at hj1
                    simpa using hj1.symm
                  subst hja
                  exact hnotin (List.mem_filterMap.mpr ⟨a₂, List.get?_mem h2, hj2⟩)
          | succ k₁' =>
              simp only [List.get?_cons_succ] at h1
              cases k₂ with
              | zero =>
                  exfalso
                  simp only [List.get?_cons_zero, Option.some.injEq] at h2
                  subst h2
                  have hja : j = j0 := by
                    rw [hai] at hj2
                    simpa using hj2.symm
                  subst hja
                  exact hnotin (List.mem_filterMap.mpr ⟨a₁, List.get?_mem h1, hj1⟩)
              | succ k₂' =>
                  simp only [List.get?_cons_succ] at h2
                  exact congrArg Nat.succ (ih hnd' k₁' k₂' a₁ a₂ j h1 h2 hj1 hj2)
      | none =>
          rw [usedOf_cons_none hai] at hnd
          cases k₁ with
          | zero =>
              exfalso
              simp only [List.get?_cons_zero, Option.some.injEq] at h1
              subst h1
              rw [hai] at hj1
              simp at hj1
          | succ k₁' =>
              simp only [List.get?_cons_succ] at h1
              cases k₂ with
              | zero =>
                  exfalso
                  simp only [List.get?_cons_zero, Option.some.injEq] at h2
                  subst h2
                  rw [hai] at hj2
                  simp at hj2
              | succ k₂' =>
                  simp only [List.get?_cons_succ] at h2
                  exact congrArg Nat.succ (ih hnd k₁' k₂' a₁ a₂ j h1 h2 hj1 hj2)

/-! ### C2: match reuse -/

/-- C2 counterexample: one run of the injection pipeline on a spec with two
tests (each a single `find "zzz"` step) against the one scanned match list
`[exMatchFind]`. The engine is called per test with a fresh used set, so both
tests' Assignments bind to the same ContentMatch (index 0): a later step of
the run does bind to an already-consumed match, refuting the claim for
multi-test specs. -/
theorem c2_counterexample :
    (specTestAssignments [[exStepFindZ], [exStepFindZ]] [exMatchFind]).map
      (fun l => l.map assignedIdx) = [[some 0], [some 0]] := by
  decide

/-- C2 (amended): within one call of the assignment engine — one test's step
list — no two Assignments reference the same ContentMatch: the referenced
match indices are pairwise distinct. The used set is not shared across the
tests of a spec, so steps in different tests may bind to the same match. -/
theorem c2_no_reuse_within_test (steps : List Step) (cms : List ContentMatch) :
    (usedOf (matchStepsToContent steps cms)).Nodup ∧
    (∀ (k₁ k₂ : Nat) (a₁ a₂ : Assignment) (j : Nat),
      (matchStepsToContent steps cms).get? k₁ = some a₁ →
      (matchStepsToContent steps cms).get? k₂ = some a₂ →
      assignedIdx a₁ = some j → assignedIdx a₂ = some j → k₁ = k₂) := by
  have hnd : (usedOf (matchStepsToContent steps cms)).Nodup :=
    (mstcGo_usedOf_props cms steps 0 none []).2
  exact ⟨hnd, nodup_usedOf_pos_inj _ hnd⟩

/-- C2 witness: the amended theorem applied to the single-step run in which
the one assignment binds match index 0; two positions referencing index 0
must coincide. -/
theorem c2_no_reuse_within_test_witness :
    (0 : Nat) = 0 ∧ (usedOf (matchStepsToContent [exStepFindZ] [exMatchFind])).Nodup :=
  ⟨(c2_no_reuse_within_test [exStepFindZ] [exMatchFind]).2 0 0
      { step := exStepFindZ, stepIndex := 0, contentMatch := some (0, exMatchFind),
        score := 1 }
      { step := exStepFindZ, stepIndex := 0, contentMatch := some (0, exMatchFind),
        score := 1 } 0 (by rfl) (by rfl) (by rfl) (by rfl),
   (c2_no_reuse_within_test [exStepFindZ] [exMatchFind]).1⟩

/-! ### C3: sequential adjustment -/

/-- C3 counterexample: on steps `[checkLink, type, find]` and matches
`[exMatchLink (offset 100), exMatchFind (offset 50)]`, step 0 is accepted at
offset 100 and step 1 is unmatched. For step 2 the previous *accepted*
assignment sits at offset 100 and the candidate `exMatchFind` sits at offset
50 < 100, so the claim's adjustment gives `0.3 - 0.1 = 0.2 < 0.3` and the
step should be unmatched — yet the code accepts it (the code adjusts relative
to the immediately preceding list entry, which is unmatched, with reference
offset `-1`, giving `0.3 + 0.2 = 0.5`). -/
theorem c3_counterexample :
    (matchStepsToContent [exStepLink, exStepType, exStepFind]
        [exMatchLink, exMatchFind]).map assignedIdx = [some 0, none, some 1] ∧
    specPrevAcceptedOffset
      (matchStepsToContent [exStepLink, exStepType, exStepFind]
        [exMatchLink, exMatchFind]) 2 = some 100 ∧
    exMatchFind.offset < 100 ∧
    calculateSimilarity exStepFind exMatchFind - 1/10 < 3/10 := by
  refine ⟨by decide, by decide, by decide, by decide⟩

/-- C3 (amended): for every step after the first processed one, the engine
adjusts each candidate's score relative to the reference offset of the
immediately preceding produced assignment — its match's start offset if that
entry was accepted, and `-1` if it was unmatched (so every candidate then
counts as forward): `+0.2` if the candidate's offset is strictly greater,
`-0.1` otherwise (`seqAdj`/`candScore`). The step is matched exactly when
some unused candidate's adjusted score is at least `0.3`; the accepted
candidate carries an adjusted score that is maximal among the unused
candidates, and otherwise the step is unmatched (`stepSpecHolds`). -/
theorem c3_sequential_adjustment (steps : List Step) (cms : List ContentMatch)
    (k : Nat) (s : Step) (a : Assignment) (hs : steps.get? k = some s)
    (ha : (matchStepsToContent steps cms).get? k = some a) :
    stepSpecHolds cms
      (if k = 0 then none else (matchStepsToContent steps cms).get? (k - 1))
      (fun j => j ∈ usedOf ((matchStepsToContent steps cms).take k)) s a :=
  matchSteps_spec hs ha

/-- C3 witness: the amended theorem applied to the one-step run
`matchStepsToContent [exStepType] []`, whose single output entry is the
unmatched assignment at index 0. -/
theorem c3_sequential_adjustment_witness :
    stepSpecHolds [] none
      (fun j => j ∈ usedOf ((matchStepsToContent [exStepType] []).take 0)) exStepType
      (unmatchedAssignment exStepType 0 none) :=
  c3_sequential_adjustment [exStepType] [] 0 exStepType
    (unmatchedAssignment exStepType 0 none) (by rfl) (by rfl)

/-! ### C5: unmatched-step fallback offsets -/

/-- C5 counterexample: on steps `[checkLink, type, type]` against the single
match `exMatchLink` (endOffset 110), step 0 is accepted, step 1 is unmatched
with suggested offset 110, and step 2 is unmatched with suggested offset 0 —
not 110, the end offset of the previous accepted match, because the code
reads the fallback from the immediately preceding (unmatched) entry. The
suggested offsets 110, 0 are also not increasing. -/
theorem c5_counterexample :
    (matchStepsToContent [exStepLink, exStepType, exStepType] [exMatchLink]).map
      (fun a => (assignedIdx a, a.unmatched, a.suggestedOffset)) =
      [(some 0, false, 0), (none, true, 110), (none, true, 0)] ∧
    exMatchLink.endOffset = 110 := by
  refine ⟨by decide, by decide⟩

/-- C5 (amended): an unmatched step's suggested offset is the end offset of
the match of the immediately preceding produced assignment if that entry was
matched, and 0 otherwise (in particular 0 for the first step and 0 whenever
the preceding entry was itself unmatched); with an empty candidate match list
every step is unmatched and every suggested offset is 0. -/
theorem c5_unmatched_offsets (steps : List Step) (cms : List ContentMatch)
    (k : Nat) (s : Step) (a : Assignment) (hs : steps.get? k = some s)
    (ha : (matchStepsToContent steps cms).get? k = some a) :
    (a.unmatched = true →
      a.suggestedOffset =
        prevSuggested
          (if k = 0 then none else (matchStepsToContent steps cms).get? (k - 1))) ∧
    (cms = [] → a.unmatched = true ∧ a.suggestedOffset = 0) := by
  constructor
  · intro hu
    have h := matchSteps_spec hs ha
    unfold stepSpecHolds at h
    rcases h with ⟨j, m, _, h2, _⟩ | ⟨_, _, h3, _⟩
    · rw [h2] at hu
      exact absurd hu (by simp)
    · exact h3
  · intro hnil
    subst hnil
    have hmem : a ∈ mstcGo [] steps 0 none [] := List.get?_mem ha
    obtain ⟨_, h2, h3⟩ := mstcGo_nil_unmatched steps 0 none [] trivial a hmem
    exact ⟨h2, h3⟩

/-- C5 witness: the amended theorem applied to the empty-candidate run
`matchStepsToContent [exStepType] []`. -/
theorem c5_unmatched_offsets_witness :
    ((unmatchedAssignment exStepType 0 none).unmatched = true →
      (unmatchedAssignment exStepType 0 none).suggestedOffset = prevSuggested none) ∧
    (([] : List ContentMatch) = [] →
      (unmatchedAssignment exStepType 0 none).unmatched = true ∧
      (unmatchedAssignment exStepType 0 none).suggestedOffset = 0) :=
  c5_unmatched_offsets [exStepType] [] 0 exStepType
    (unmatchedAssignment exStepType 0 none) (by rfl) (by rfl)

/-! ### C4: base similarity score -/

/-- C4 counterexample: the step `find "alpha"` and a `find` match whose value
is `"beta"`: both values are present (a clear value signal), they are not
equal, neither contains the other and they share no words — yet the score is
`0.3`, refuting the reading that `0.3` arises only when there is no value
signal at all. -/
theorem c4_counterexample :
    calculateSimilarity [("find", JValue.str "alpha")] exMatchBeta = 3/10 ∧
    lookupKey [("find", JValue.str "alpha")] "find" = some (JValue.str "alpha") ∧
    matchValue exMatchBeta = "beta" ∧
    ("alpha" : String) ≠ "beta" ∧
    (commonWords "alpha" "beta").length = 0 := by
  refine ⟨by decide, by rfl, by rfl, by decide, by decide⟩

/-- C4 (amended): the base score is 0 on an action mismatch; on an action
match with a string step value it is 1 for exact equality, 0.8 when one value
contains the other, `0.5 * |common| / max(|stepWords|, |matchWords|)` when the
values share at least one word, and 0.3 when they share none; and it is 0.3
in every remaining action-match case (no string step value). -/
theorem c4_similarity_cases (step : Step) (m : ContentMatch) :
    (stepActionKey step ≠ m.actions.head? → calculateSimilarity step m = 0) ∧
    (stepActionKey step = m.actions.head? →
      ((∀ k, stepActionKey step = some k →
          ∀ sv, lookupKey step k ≠ some (JValue.str sv)) →
        calculateSimilarity step m = 3/10) ∧
      (∀ k sv, stepActionKey step = some k →
        lookupKey step k = some (JValue.str sv) →
        (sv = matchValue m → calculateSimilarity step m = 1) ∧
        (sv ≠ matchValue m →
          (strContains sv (matchValue m) || strContains (matchValue m) sv) = true →
          calculateSimilarity step m = 4/5) ∧
        (sv ≠ matchValue m →
          (strContains sv (matchValue m) || strContains (matchValue m) sv) = false →
          ((commonWords sv (matchValue m)).length ≠ 0 →
            calculateSimilarity step m =
              1/2 * (((commonWords sv (matchValue m)).length : ℚ) /
                (max (jsWords sv).length (jsWords (matchValue m)).length : ℚ))) ∧
          ((commonWords sv (matchValue m)).length = 0 →
            calculateSimilarity step m = 3/10)))) := by
  constructor
  · intro hne
    unfold calculateSimilarity
    rw [if_neg hne]
  · intro heq
    constructor
    · intro hnostr
      unfold calculateSimilarity
      rw [if_pos heq]
      cases hsv : (stepActionKey step).bind (lookupKey step) with
      | none => rfl
      | some v =>
          cases v with
          | str sv =>
              exfalso
              cases hak : stepActionKey step with
              | none => rw [hak] at hsv; simp at hsv
              | some k =>
                  rw [hak] at hsv
                  simp only [Option.some_bind] at hsv
                  exact hnostr k hak sv hsv
          | num n => rfl
          | bool b => rfl
          | null => rfl
          | arr xs => rfl
          | obj kvs => rfl
    · intro k sv hak hkv
      have hsv : (stepActionKey step).bind (lookupKey step) = some (JValue.str sv) := by
        rw [hak]
        simpa using hkv
      refine ⟨?_, ?_, ?_⟩
      · intro heqv
        unfold calculateSimilarity
        rw [if_pos heq, hsv]
        simp [heqv]
      · intro hnev hcont
        unfold calculateSimilarity
        rw [if_pos heq, hsv]
        simp [hnev, hcont]
      · intro hnev hcont
        constructor
        · intro hcw
          unfold calculateSimilarity
          rw [if_pos heq, hsv]
          have hpos : 0 < (commonWords sv (matchValue m)).length := Nat.pos_of_ne_zero hcw
          simp [hnev, hcont, hpos]
        · intro hcw
          unfold calculateSimilarity
          rw [if_pos heq, hsv]
          simp [hnev, hcont, hcw]

/-- C4 witness: the amended theorem applied to `find "alpha"` against
`exMatchBeta`, in the zero-common-words branch. -/
theorem c4_similarity_cases_witness :
    calculateSimilarity [("find", JValue.str "alpha")] exMatchBeta = 3/10 :=
  ((((c4_similarity_cases [("find", JValue.str "alpha")] exMatchBeta).2
      (by decide)).2 "find" "alpha" (by rfl) (by rfl)).2.2
    (by decide) (by decide)).2 (by decide)

/-! ### C6: step serialization -/

theorem lookup_of_find_nonexcluded {l : Step} {ak : String} {v : JValue}
    (h : l.find? (fun kv => !EXCLUDED_STEP_KEYS.contains kv.1) = some (ak, v)) :
    lookupKey l ak = some v := by
  induction l with
  | nil => simp [List.find?] at h
  | cons kv rest ih =>
      obtain ⟨k, w⟩ := kv
      by_cases hp : EXCLUDED_STEP_KEYS.contains k = true
      · rw [List.find?_cons_of_neg _ (by simp; exact List.mem_of_elem_eq_true hp)] at h
        have hmem := List.find?_some h
        have hne : k ≠ ak := by
          intro hkak
          subst hkak
          simp at hmem
          exact hmem (List.mem_of_elem_eq_true hp)
        unfold lookupKey
        rw [List.find?_cons_of_neg _ (by simp [hne])]
        exact ih h
      · rw [List.find?_cons_of_pos _
          (by simp; exact fun hm => hp (List.elem_eq_true_of_mem hm))] at h
        simp only [Option.some.injEq, Prod.mk.injEq] at h
        obtain ⟨h1, h2⟩ := h
        subst h1
        subst h2
        unfold lookupKey
        rw [List.find?_cons_of_pos _ (by simp)]
        rfl

/-- C6 counterexample: the step `{click: "x", stepId: "s1"}` has exactly one
non-metadata field (`click`) with a primitive value, yet serialization does
not drop the metadata: the full object including `stepId` is rendered, not
`{click: "x"}`. -/
theorem c6_counterexample :
    serializeStepToInline exStepWithId none ".md" none =
      .ok "<!-- step \x7b\"click\":\"x\",\"stepId\":\"s1\"\x7d -->" ∧
    serializeStepToInline exStepWithId none ".md" none ≠
      .ok "<!-- step \x7b\"click\":\"x\"\x7d -->" := by
  constructor
  · rfl
  · intro h
    rw [show serializeStepToInline exStepWithId none ".md" none =
        Except.ok "<!-- step \x7b\"click\":\"x\",\"stepId\":\"s1\"\x7d -->" from rfl] at h
    injection h with h'
    exact absurd h' (by decide)

theorem canSimple_false_of_meta (l : Step) (ak : String)
    (h : jsTruthyOpt (lookupKey l "stepId") = true ∨
         jsTruthyOpt (lookupKey l "description") = true) :
    canSerializeAsSimple l ak = false := by
  have hor : (jsTruthyOpt (lookupKey l "stepId") ||
      jsTruthyOpt (lookupKey l "description") ||
      isTrueVal (lookupKey l "unsafe") ||
      (jsTruthyOpt (lookupKey l "outputs") &&
        decide (jsKeysCount ((lookupKey l "outputs").getD .null) > 0)) ||
      (jsTruthyOpt (lookupKey l "variables") &&
        decide (jsKeysCount ((lookupKey l "variables").getD .null) > 0)) ||
      isTrueVal (lookupKey l "breakpoint")) = true := by
    rcases h with h1 | h1 <;> simp [h1]
  unfold canSerializeAsSimple
  rw [hor]
  simp

/-- C6 (amended): serialization depends only on the step with its
`sourceLocation` entries removed (so `sourceLocation` never appears among the
serialized keys); when the step additionally carries a truthy `stepId` or
`description`, the compact form does not apply and the full filtered object is
rendered; and when `canSerializeAsSimple` holds — sole non-excluded key with a
primitive value and no truthy metadata — only `{action: value}` is rendered. -/
theorem c6_simple_form (step : Step) (cf? : Option String) (fe : String)
    (sf? : Option String) :
    (serializeStepToInline step cf? fe sf? =
      serializeStepToInline (step.filter (fun kv => kv.1 ≠ "sourceLocation")) cf? fe sf?) ∧
    (∀ ak v,
      (step.filter (fun kv => kv.1 ≠ "sourceLocation")).find?
          (fun kv => !EXCLUDED_STEP_KEYS.contains kv.1) = some (ak, v) →
      (jsTruthyOpt (lookupKey (step.filter (fun kv => kv.1 ≠ "sourceLocation")) "stepId") ||
        jsTruthyOpt (lookupKey (step.filter (fun kv => kv.1 ≠ "sourceLocation"))
          "description")) = true →
      serializeStepToInline step cf? fe sf? =
        .ok (wrapStepComment
          ((lookupCommentFormat (jsOr cf? (getCommentFormat fe))).getD htmlComment)
          (serializeToSyntax (step.filter (fun kv => kv.1 ≠ "sourceLocation"))
            (jsOr sf? "json")))) ∧
    (∀ ak v,
      (step.filter (fun kv => kv.1 ≠ "sourceLocation")).find?
          (fun kv => !EXCLUDED_STEP_KEYS.contains kv.1) = some (ak, v) →
      canSerializeAsSimple (step.filter (fun kv => kv.1 ≠ "sourceLocation")) ak = true →
      serializeStepToInline step cf? fe sf? =
        .ok (wrapStepComment
          ((lookupCommentFormat (jsOr cf? (getCommentFormat fe))).getD htmlComment)
          (serializeToSyntax [(ak, v)] (jsOr sf? "json")))) := by
  refine ⟨?_, ?_, ?_⟩
  · unfold serializeStepToInline
    rw [List.filter_filter]
    have : (fun (kv : String × JValue) =>
        decide (kv.1 ≠ "sourceLocation") && decide (kv.1 ≠ "sourceLocation")) =
        (fun kv => decide (kv.1 ≠ "sourceLocation")) := by
      funext kv
      exact Bool.and_self _
    rw [this]
  · intro ak v hfind hmeta
    have hcs : canSerializeAsSimple
        (step.filter (fun kv => kv.1 ≠ "sourceLocation")) ak = false := by
      apply canSimple_false_of_meta
      simpa using hmeta
    simp only [serializeStepToInline]
    rw [hfind]
    dsimp only
    rw [hcs]
    simp
  · intro ak v hfind hcs
    have hlk : lookupKey (step.filter (fun kv => kv.1 ≠ "sourceLocation")) ak = some v :=
      lookup_of_find_nonexcluded hfind
    simp only [serializeStepToInline]
    rw [hfind]
    dsimp only
    rw [hcs]
    simp only [ne_eq, decide_not] at hlk
    simp [hlk]

/-- C6 witness: the amended theorem's full-object branch applied to
`exStepWithId` (truthy `stepId`), and its compact branch applied to the bare
step `{click: "x"}`. -/
theorem c6_simple_form_witness :
    serializeStepToInline exStepWithId none ".md" none =
      .ok (wrapStepComment
        ((lookupCommentFormat (jsOr none (getCommentFormat ".md"))).getD htmlComment)
        (serializeToSyntax (exStepWithId.filter (fun kv => kv.1 ≠ "sourceLocation"))
          (jsOr none "json"))) ∧
    serializeStepToInline [("click", JValue.str "x")] none ".md" none =
      .ok (wrapStepComment
        ((lookupCommentFormat (jsOr none (getCommentFormat ".md"))).getD htmlComment)
        (serializeToSyntax [("click", JValue.str "x")] (jsOr none "json"))) :=
  ⟨(c6_simple_form exStepWithId none ".md" none).2.1 "click" (JValue.str "x")
      (by rfl) (by decide),
   (c6_simple_form [("click", JValue.str "x")] none ".md" none).2.2 "click"
      (JValue.str "x") (by rfl) (by decide)⟩

/-! ### C7: custom-pattern compile errors -/

theorem mapMEx_error_of_mem {α β : Type} (f : α → Except String β) {l : List α} {x : α}
    (hx : x ∈ l) {e : String} (hf : f x = .error e) :
    ∃ e', mapMEx f l = .error e' := by
  induction l with
  | nil => simp at hx
  | cons y rest ih =>
      rcases List.mem_cons.mp hx with rfl | hx'
      · exact ⟨e, by simp [mapMEx, hf]⟩
      · cases hfy : f y with
        | error e2 => exact ⟨e2, by simp [mapMEx, hfy]⟩
        | ok v =>
            obtain ⟨e', he'⟩ := ih hx'
            exact ⟨e', by simp [mapMEx, hfy, he']⟩

/-- C7 counterexample: with a config carrying two custom markdown patterns —
one whose regex source `"("` fails to compile and one that compiles fine —
pattern loading returns an error for the whole operation instead of skipping
the bad pattern and continuing with the remaining ones. -/
theorem c7_counterexample :
    getMarkupPatterns exBadCompile "markdown" (some exCfgBadPattern) =
      .error "Invalid regular expression" := by
  rfl

/-- C7 (amended): a configured custom pattern whose regex fails to compile is
not skipped: the exception thrown by `new RegExp` propagates out of the
unprotected `.map`, so the whole pattern-loading call fails (and with it the
injection run), rather than scanning continuing with the remaining
patterns. -/
theorem c7_pattern_error_aborts (compile : String → Except String JRegex)
    (fileType : String) (cfg : Config) (fts : List FileTypeCfg)
    (cps : List (String × List CustomPattern)) (plist : List CustomPattern)
    (p : CustomPattern) (e : String)
    (h1 : cfg.fileTypes = some fts)
    (h2 : cfg.customPatterns = some cps)
    (h3 : (cps.find? (fun (x : String × List CustomPattern) => x.1 == fileType)).map
        (·.2) = some plist)
    (h4 : p ∈ plist) (h5 : compile p.regex = .error e) :
    ∃ e', getMarkupPatterns compile fileType (some cfg) = .error e' := by
  obtain ⟨ec, hec⟩ := mapMEx_error_of_mem
    (fun (p : CustomPattern) =>
      match compile p.regex with
      | .error e => .error e
      | .ok r => .ok { name := p.name, regexes := [r],
                       actions := [p.action],
                       captureGroups :=
                         [("value",
                           match p.valueGroup with
                           | some n => if n = 0 then 1 else n
                           | none => 1)]
                       : MarkupPattern }) h4 (e := e) (by simp only [h5])
  unfold getMarkupPatterns
  dsimp only
  rw [h1]
  dsimp only
  cases hfc : fts.find? (fun ft => ft.name == fileType) with
  | none =>
      dsimp only
      rw [h2]
      dsimp only [Option.some_bind]
      rw [h3]
      dsimp only
      rw [hec]
      exact ⟨ec, rfl⟩
  | some ftc =>
      dsimp only
      cases hmu : ftc.markup with
      | none =>
          dsimp only
          rw [h2]
          dsimp only [Option.some_bind]
          rw [h3]
          dsimp only
          rw [hec]
          exact ⟨ec, rfl⟩
      | some mus =>
          dsimp only
          cases hcm : mapMEx (fun (p : CfgMarkupPattern) =>
              match mapMEx compile p.regex with
              | .error e => .error e
              | .ok rs => .ok { name := p.name, regexes := rs,
                                actions := p.actions,
                                captureGroups := p.captureGroups
                                : MarkupPattern }) mus with
          | error e2 => exact ⟨e2, rfl⟩
          | ok l2 =>
              dsimp only
              rw [h2]
              dsimp only [Option.some_bind]
              rw [h3]
              dsimp only
              rw [hec]
              exact ⟨ec, rfl⟩

/-- C7 witness: the amended theorem applied to `exBadCompile` and
`exCfgBadPattern`. -/
theorem c7_pattern_error_aborts_witness :
    ∃ e', getMarkupPatterns exBadCompile "markdown" (some exCfgBadPattern) = .error e' :=
  c7_pattern_error_aborts exBadCompile "markdown" exCfgBadPattern []
    [("markdown",
      [{ name := "bad", regex := "(", action := "click", valueGroup := none },
       { name := "good", regex := "ok", action := "find", valueGroup := none }])]
    [{ name := "bad", regex := "(", action := "click", valueGroup := none },
     { name := "good", regex := "ok", action := "find", valueGroup := none }]
    { name := "bad", regex := "(", action := "click", valueGroup := none }
    "Invalid regular expression" rfl rfl rfl (List.mem_cons_self _ _) rfl

/-! ### C10: test start/end markers -/

theorem stepUpdateOf_type {cf sf : String} {m : Assignment} {u : Update}
    (h : stepUpdateOf cf sf m = .ok u) : u.type = "step" := by
  unfold stepUpdateOf at h
  cases hs : serializeStepToInline m.step (some cf) "" (some sf) with
  | error e => rw [hs] at h; exact absurd h (by simp)
  | ok r =>
      rw [hs] at h
      simp only [Except.ok.injEq] at h
      rw [← h]

theorem mapMEx_stepUpdates_types (cf sf : String) :
    ∀ (ms : List Assignment) (us : List Update),
      mapMEx (stepUpdateOf cf sf) ms = .ok us →
      us.map (fun u => u.type) = ms.map (fun _ => "step") := by
  intro ms
  induction ms with
  | nil =>
      intro us h
      simp only [mapMEx, Except.ok.injEq] at h
      rw [← h]
      rfl
  | cons m rest ih =>
      intro us h
      simp only [mapMEx] at h
      cases hf : stepUpdateOf cf sf m with
      | error e => rw [hf] at h; exact absurd h (by simp)
      | ok u =>
          rw [hf] at h
          cases hr : mapMEx (stepUpdateOf cf sf) rest with
          | error e => rw [hr] at h; exact absurd h (by simp)
          | ok us' =>
              rw [hr] at h
              simp only [Except.ok.injEq] at h
              rw [← h]
              simp only [List.map_cons]
              rw [stepUpdateOf_type hf, ih us' hr]

/-- C10: test-start and test-end markers are emitted exactly when the test
has a truthy `testId` or a truthy `description`: in that case the update list
is a `testStart` marker, one `step` update per assignment, and a `testEnd`
marker; otherwise it consists of step updates only, with no bracketing
markers. -/
theorem c10_test_markers (ms : List Assignment) (test : Test) (cf sf : String)
    (us : List Update) (h : generateUpdates ms test cf sf = .ok us) :
    ((jsTruthyOpt test.testId || jsTruthyOpt test.description) = true →
      us.map (fun u => u.type) =
        "testStart" :: (ms.map (fun _ => "step") ++ ["testEnd"])) ∧
    ((jsTruthyOpt test.testId || jsTruthyOpt test.description) = false →
      us.map (fun u => u.type) = ms.map (fun _ => "step")) := by
  unfold generateUpdates at h
  cases hsu : mapMEx (stepUpdateOf cf sf) ms with
  | error e => rw [hsu] at h; exact absurd h (by simp)
  | ok stepUpdates =>
      rw [hsu] at h
      have htypes := mapMEx_stepUpdates_types cf sf ms stepUpdates hsu
      constructor
      · intro hm
        rw [hm] at h
        simp only [if_true, Except.ok.injEq] at h
        rw [← h]
        simp [htypes]
      · intro hm
        rw [hm] at h
        simp only [Bool.false_eq_true, if_false, Except.ok.injEq] at h
        rw [← h]
        simp [htypes]

/-- C10 witness: the theorem applied to an empty assignment list and a test
with a truthy `testId`, whose generated updates are exactly one `testStart`
and one `testEnd` marker. -/
theorem c10_test_markers_witness :
    ([{ offset := 0, newContent := "<!-- test \x7b\"testId\":\"t\"\x7d -->",
        insertAfter := false, type := "testStart" },
      { offset := 1, newContent := "<!-- test end -->",
        insertAfter := true, type := "testEnd" }] : List Update).map
      (fun u => u.type) =
      "testStart" :: (([] : List Assignment).map (fun _ => "step") ++ ["testEnd"]) :=
  (c10_test_markers [] { testId := some (JValue.str "t") } "htmlComment" "json"
    [{ offset := 0, newContent := "<!-- test \x7b\"testId\":\"t\"\x7d -->",
       insertAfter := false, type := "testStart" },
     { offset := 1, newContent := "<!-- test end -->",
       insertAfter := true, type := "testEnd" }] (by rfl)).1 (by rfl)
